import Mathlib

/-!
Verification development for a mail-log structural parser and transaction
correlator.  The program is embedded shallowly: the single compiled extraction
pattern is translated into an equivalent deterministic matcher over `List Char`
(the pattern contains no point where two distinct parses of the same line can
both complete, so the backtracking search collapses to the straight-line code
below), the timestamp resolver is translated together with the three strptime
grammars it attempts, and the correlator is explicit state passing over an
association list keyed by queue id.
-/

namespace PLog

/-- Decimal digit, the pattern class 0-9. -/
def isDigitC (c : Char) : Bool := '0' ≤ c && c ≤ '9'

/-- Uppercase letter A-Z. -/
def isUpperC (c : Char) : Bool := 'A' ≤ c && c ≤ 'Z'

/-- Lowercase letter a-z. -/
def isLowerC (c : Char) : Bool := 'a' ≤ c && c ≤ 'z'

/-- Any ASCII letter. -/
def isAlphaC (c : Char) : Bool := isUpperC c || isLowerC c

/-- Whitespace, as accepted by the regex whitespace class and by str.strip
for ASCII input. -/
def isSpaceC (c : Char) : Bool :=
  c == ' ' || c == '\t' || c == '\n' || c == '\r' || c == '\x0b' || c == '\x0c'

/-- Hostname characters: the class of digits, letters, dot and hyphen. -/
def isHostC (c : Char) : Bool := isDigitC c || isAlphaC c || c == '.' || c == '-'

/-- Queue-id characters: the class of digits and uppercase letters only. -/
def isQueueC (c : Char) : Bool := isDigitC c || isUpperC c

/-- Numeric value of a digit character. -/
def digitVal (c : Char) : Nat := c.toNat - 48

/-- Value of a digit string, most significant first. -/
def digitsVal (l : List Char) : Nat := l.foldl (fun a c => a * 10 + digitVal c) 0

/-- Consume an exact literal prefix, or fail. -/
def dropLit : List Char → List Char → Option (List Char)
  | [], l => some l
  | _ :: _, [] => none
  | p :: ps, c :: cs => if c = p then dropLit ps cs else none

/-- Timestamp value as produced by strptime followed by datetime construction.
The offset field is in signed microseconds east of UTC; the syslog grammar
produces a naive value with no offset. -/
structure DateTime where
  year : Nat
  month : Nat
  day : Nat
  hour : Nat
  minute : Nat
  second : Nat
  microsecond : Nat
  utcOffsetMicros : Option Int
deriving DecidableEq

/-- Gregorian leap year rule used by the datetime constructor. -/
def isLeapYear (y : Nat) : Bool := y % 4 == 0 && (y % 100 != 0 || y % 400 == 0)

/-- Day count of a month, for datetime construction validation. -/
def daysInMonth (y m : Nat) : Nat :=
  if m = 2 then (if isLeapYear y then 29 else 28)
  else if m = 4 ∨ m = 6 ∨ m = 9 ∨ m = 11 then 30 else 31

/-- Validation performed by the datetime constructor; a failure raises
ValueError in the source, which the resolver catches and turns into absence. -/
def validDate (t : DateTime) : Bool :=
  decide (1 ≤ t.year) && decide (t.year ≤ 9999) &&
  decide (1 ≤ t.month) && decide (t.month ≤ 12) &&
  decide (1 ≤ t.day) && decide (t.day ≤ daysInMonth t.year t.month) &&
  decide (t.hour ≤ 23) && decide (t.minute ≤ 59) && decide (t.second ≤ 59) &&
  decide (t.microsecond ≤ 999999) &&
  match t.utcOffsetMicros with
  | none => true
  | some o => decide (o.natAbs < 86400 * 1000000)

/-- Numeric strptime field of one or two digits.  In every format used here
the element after such a field can never match a digit, so a run of three or
more digits fails outright, and the two-digit reading is forced whenever two
digits are present; valid1 constrains the one-digit alternatives of the field
pattern and valid2 the two-digit alternatives. -/
def num12 (valid1 valid2 : Nat → Bool) (l : List Char) : Option (Nat × List Char) :=
  match l with
  | [] => none
  | [c1] => if isDigitC c1 && valid1 (digitVal c1) then some (digitVal c1, []) else none
  | c1 :: c2 :: rest =>
    if isDigitC c1 then
      if isDigitC c2 then
        if isDigitC (rest.headD 'x') then none
        else if valid2 (digitVal c1 * 10 + digitVal c2) then
          some (digitVal c1 * 10 + digitVal c2, rest)
        else none
      else if valid1 (digitVal c1) then some (digitVal c1, c2 :: rest) else none
    else none

/-- Day-of-month field: besides the one- and two-digit numeric alternatives,
the day pattern ends with a space-padded single nonzero digit alternative;
no other alternative starts with a space, so that branch applies exactly
when the field starts with one. -/
def dayField (l : List Char) : Option (Nat × List Char) :=
  match l with
  | ' ' :: c :: rest =>
    if '1' ≤ c && c ≤ '9' then some (digitVal c, rest) else none
  | _ => num12 (fun v => decide (1 ≤ v)) (fun v => decide (1 ≤ v) && decide (v ≤ 31)) l

/-- Four-digit strptime year field. -/
def num4 (l : List Char) : Option (Nat × List Char) :=
  match l with
  | a :: b :: c :: d :: rest =>
    if isDigitC a && isDigitC b && isDigitC c && isDigitC d then
      some (digitVal a * 1000 + digitVal b * 100 + digitVal c * 10 + digitVal d, rest)
    else none
  | _ => none

/-- Fractional-second field: one to six digits; a longer digit run cannot be
split because the element that follows never matches a digit. -/
def parseFrac (l : List Char) : Option (Nat × List Char) :=
  let run := l.takeWhile isDigitC
  if run.length = 0 || 7 ≤ run.length then none
  else some (digitsVal run * 10 ^ (6 - run.length), l.dropWhile isDigitC)

/-- Signed offset in microseconds from its parsed components. -/
def zOffset (sign : Int) (hh mm ss fr : Nat) : Int :=
  sign * (((hh * 3600 + mm * 60 + ss) * 1000000 + fr : Nat) : Int)

/-- Consume one optional colon, recording whether it was there. -/
def optColon : List Char → Bool × List Char
  | ':' :: t => (true, t)
  | t => (false, t)

/-- Structural match of the offset directive after the sign, per its pattern:
two hour digits, an optional colon, minutes, then optionally another optional
colon, seconds and a dot-fraction of one to six digits; the directive is the
last element of both ISO formats so it must reach the end of the input.
Returned are the hours, whether the first colon was present, the minutes, and
optionally whether the second colon was present with the seconds and the
fraction digits. -/
def zFields (r : List Char) : Option (Nat × Bool × Nat × Option (Bool × Nat × List Char)) :=
  match r with
  | h1 :: h2 :: r1 =>
    if isDigitC h1 && isDigitC h2 then
      let hh := digitVal h1 * 10 + digitVal h2
      let p1 := optColon r1
      match p1.2 with
      | m1 :: m2 :: r3 =>
        if ('0' ≤ m1 && m1 ≤ '5') && isDigitC m2 then
          let mm := digitVal m1 * 10 + digitVal m2
          match r3 with
          | [] => some (hh, p1.1, mm, none)
          | _ =>
            let p2 := optColon r3
            match p2.2 with
            | s1 :: s2 :: r5 =>
              if ('0' ≤ s1 && s1 ≤ '5') && isDigitC s2 then
                let ss := digitVal s1 * 10 + digitVal s2
                match r5 with
                | [] => some (hh, p1.1, mm, some (p2.1, ss, []))
                | '.' :: fr =>
                  let run := fr.takeWhile isDigitC
                  if run.length = 0 || 7 ≤ run.length || fr.dropWhile isDigitC ≠ [] then none
                  else some (hh, p1.1, mm, some (p2.1, ss, run))
                | _ => none
              else none
            | _ => none
        else none
      | _ => none
    else none
  | _ => none

/-- Value parsing of a matched offset, as the library performs on the matched
text after stripping a first colon: with seconds present the two colons must
be used consistently — a first colon without a second hits the explicit
inconsistency error, and a second without a first leaves a colon inside the
numeric seconds slice — and either failure is a ValueError the resolver
catches. -/
def zValue (sign : Int) (hh : Nat) (c1 : Bool) (mm : Nat)
    (rest : Option (Bool × Nat × List Char)) : Option Int :=
  match rest with
  | none => some (zOffset sign hh mm 0 0)
  | some (c2, ss, fr) =>
    if c1 = c2 then some (zOffset sign hh mm ss (digitsVal fr * 10 ^ (6 - fr.length)))
    else none

/-- Offset directive: an uppercase Z (that one letter is matched
case-sensitively), or a sign followed by the matched fields above, run
through the value parsing. -/
def parseZ (l : List Char) : Option Int :=
  match l with
  | ['Z'] => some (0 : Int)
  | s :: r =>
    if s == '+' || s == '-' then
      match zFields r with
      | some (hh, c1, mm, rest) =>
        zValue (if s == '-' then (-1 : Int) else 1) hh c1 mm rest
      | none => none
    else none
  | _ => none

/-- Lowercased letter, for the case-insensitive pieces of strptime. -/
def lowerC (c : Char) : Char := if isUpperC c then Char.ofNat (c.toNat + 32) else c

/-- Abbreviated month name, matched case-insensitively. -/
def monthNum (a b c : Char) : Option Nat :=
  match lowerC a, lowerC b, lowerC c with
  | 'j', 'a', 'n' => some 1
  | 'f', 'e', 'b' => some 2
  | 'm', 'a', 'r' => some 3
  | 'a', 'p', 'r' => some 4
  | 'm', 'a', 'y' => some 5
  | 'j', 'u', 'n' => some 6
  | 'j', 'u', 'l' => some 7
  | 'a', 'u', 'g' => some 8
  | 's', 'e', 'p' => some 9
  | 'o', 'c', 't' => some 10
  | 'n', 'o', 'v' => some 11
  | 'd', 'e', 'c' => some 12
  | _, _, _ => none

/-- A whitespace literal in a strptime format stands for one or more
whitespace characters; nothing following such a literal in the formats used
here can match whitespace, so the maximal run is forced. -/
def wsPlus (l : List Char) : Option (List Char) :=
  if isSpaceC (l.headD 'x') then some (l.dropWhile isSpaceC) else none

/-- Shared date-and-time core of the two ISO formats; the letter T between
date and time is matched case-insensitively because strptime compiles its
pattern with IGNORECASE. -/
def parseIsoCore (l : List Char) : Option (Nat × Nat × Nat × Nat × Nat × Nat × List Char) :=
  (num4 l).bind fun p1 =>
  (dropLit (['-']) p1.2).bind fun l1 =>
  (num12 (fun v => decide (1 ≤ v)) (fun v => decide (1 ≤ v) && decide (v ≤ 12)) l1).bind fun p2 =>
  (dropLit (['-']) p2.2).bind fun l2 =>
  (dayField l2).bind fun p3 =>
  (match p3.2 with
    | c :: r => if c == 'T' || c == 't' then some r else none
    | [] => none).bind fun l4 =>
  (num12 (fun _ => true) (fun v => decide (v ≤ 23)) l4).bind fun p4 =>
  (dropLit ([':']) p4.2).bind fun l5 =>
  (num12 (fun _ => true) (fun v => decide (v ≤ 59)) l5).bind fun p5 =>
  (dropLit ([':']) p5.2).bind fun l6 =>
  (num12 (fun _ => true) (fun v => decide (v ≤ 61)) l6).bind fun p6 =>
  some (p1.1, p2.1, p3.1, p4.1, p5.1, p6.1, p6.2)

/-- ISO format with mandatory fractional seconds and offset. -/
def strptimeIsoFrac (l : List Char) : Option DateTime :=
  (parseIsoCore l).bind fun p =>
  match p with
  | (y, mo, d, h, mi, s, rest) =>
    (dropLit (['.']) rest).bind fun l1 =>
    (parseFrac l1).bind fun p2 =>
    (parseZ p2.2).bind fun off =>
    let t : DateTime := ⟨y, mo, d, h, mi, s, p2.1, some off⟩
    if validDate t then some t else none

/-- ISO format without fractional seconds, with offset. -/
def strptimeIsoNoFrac (l : List Char) : Option DateTime :=
  (parseIsoCore l).bind fun p =>
  match p with
  | (y, mo, d, h, mi, s, rest) =>
    (parseZ rest).bind fun off =>
    let t : DateTime := ⟨y, mo, d, h, mi, s, 0, some off⟩
    if validDate t then some t else none

/-- Syslog format with the year already prepended: year, month name, day,
then hour, minute and second, anchored at end of input. -/
def strptimeSyslogYear (l : List Char) : Option DateTime :=
  (num4 l).bind fun p1 =>
  (wsPlus p1.2).bind fun l1 =>
  (match l1 with
    | a :: b :: c :: r => (monthNum a b c).map (fun m => (m, r))
    | _ => none).bind fun p2 =>
  (wsPlus p2.2).bind fun l2 =>
  (dayField l2).bind fun p3 =>
  (wsPlus p3.2).bind fun l3 =>
  (num12 (fun _ => true) (fun v => decide (v ≤ 23)) l3).bind fun p4 =>
  (dropLit ([':']) p4.2).bind fun l4 =>
  (num12 (fun _ => true) (fun v => decide (v ≤ 59)) l4).bind fun p5 =>
  (dropLit ([':']) p5.2).bind fun l5 =>
  (num12 (fun _ => true) (fun v => decide (v ≤ 61)) l5).bind fun p6 =>
  if p6.2 = [] then
    let t : DateTime := ⟨p1.1, p2.1, p3.1, p4.1, p5.1, p6.1, 0, none⟩
    if validDate t then some t else none
  else none

/-- Timestamp resolution: empty input is absent; the ISO format with
fraction is tried, then the one without, then the current processing year is
prepended and the syslog format tried; every failure is a silent absence (the
source catches ValueError at each attempt and never lets it escape). -/
def parse_time (year : Nat) (s : String) : Option DateTime :=
  if s.data = [] then none
  else match strptimeIsoFrac s.data with
  | some t => some t
  | none => match strptimeIsoNoFrac s.data with
    | some t => some t
    | none => strptimeSyslogYear ((toString year).data ++ ' ' :: s.data)

/-- Syslog-shaped timestamp token: three letters, whitespace, a one- or
two-digit day, a single space, then HH:MM:SS with two digits each.  The
whitespace and digit runs cannot be shortened: the element after each run
never matches a character of the run, so the greedy reading is the only one. -/
def syslogTimeTok (l : List Char) : Option (List Char × List Char) :=
  match l with
  | a :: b :: c :: r =>
    if isAlphaC a && isAlphaC b && isAlphaC c then
      let ws := r.takeWhile isSpaceC
      let r1 := r.dropWhile isSpaceC
      if ws = [] then none else
      let ds := r1.takeWhile isDigitC
      let r2 := r1.dropWhile isDigitC
      if ds.length = 0 || 3 ≤ ds.length then none else
      match r2 with
      | ' ' :: h1 :: h2 :: ':' :: m1 :: m2 :: ':' :: s1 :: s2 :: r3 =>
        if isDigitC h1 && isDigitC h2 && isDigitC m1 && isDigitC m2 &&
           isDigitC s1 && isDigitC s2 then
          some (a :: b :: c :: (ws ++ ds ++
            ' ' :: h1 :: h2 :: ':' :: m1 :: m2 :: ':' :: s1 :: s2 :: []), r3)
        else none
      | _ => none
    else none
  | _ => none

/-- Offset part of the ISO-shaped timestamp token: a sign with five fixed
characters, or Z. -/
def offTok : List Char → Option (List Char × List Char)
  | 'Z' :: r => some (['Z'], r)
  | s :: a :: b :: ':' :: c :: d :: r =>
    if (s == '+' || s == '-') && ('0' ≤ a && a ≤ '2') && isDigitC b &&
       ('0' ≤ c && c ≤ '5') && isDigitC d then
      some ([s, a, b, ':', c, d], r)
    else none
  | _ => none

/-- ISO-shaped timestamp token: date, capital T, time, optional dot-fraction,
then the offset.  When a dot is present the fraction and offset must follow:
skipping the optional fraction leaves the dot where the offset must start,
and a digit given back from the fraction run cannot start the offset. -/
def isoTimeTok (l : List Char) : Option (List Char × List Char) :=
  match l with
  | y1 :: y2 :: y3 :: y4 :: '-' :: o1 :: o2 :: '-' :: d1 :: d2 :: 'T' ::
      h1 :: h2 :: ':' :: mi1 :: mi2 :: ':' :: s1 :: s2 :: r =>
    if isDigitC y1 && isDigitC y2 && isDigitC y3 && isDigitC y4 &&
       (o1 == '0' || o1 == '1') && isDigitC o2 &&
       ('0' ≤ d1 && d1 ≤ '3') && isDigitC d2 &&
       ('0' ≤ h1 && h1 ≤ '2') && isDigitC h2 &&
       ('0' ≤ mi1 && mi1 ≤ '5') && isDigitC mi2 &&
       ('0' ≤ s1 && s1 ≤ '5') && isDigitC s2 then
      let stem := y1 :: y2 :: y3 :: y4 :: '-' :: o1 :: o2 :: '-' :: d1 :: d2 :: 'T' ::
        h1 :: h2 :: ':' :: mi1 :: mi2 :: ':' :: s1 :: s2 :: []
      match r with
      | '.' :: t =>
        let run := t.takeWhile isDigitC
        if run = [] then none
        else match offTok (t.dropWhile isDigitC) with
          | some (off, r2) => some (stem ++ '.' :: run ++ off, r2)
          | none => none
      | _ =>
        match offTok r with
        | some (off, r2) => some (stem ++ off, r2)
        | none => none
    else none
  | _ => none

/-- Timestamp alternation: the syslog branch is attempted first, then the ISO
branch.  The branches need a letter and a digit respectively as first
character, so at most one can match and no backtracking across the
alternation is possible. -/
def timeTok (l : List Char) : Option (List Char × List Char) :=
  match syslogTimeTok l with
  | some r => some r
  | none => isoTimeTok l

/-- One or more slash-subtag units of the process tag.  Giving back a unit
puts a slash where the bracket must be and giving back a letter puts a letter
there, so the maximal reading is the only one. -/
def procUnitsF : Nat → List Char → Option (List Char × List Char)
  | 0, _ => none
  | _, [] => none
  | fuel + 1, '/' :: r =>
    let run := r.takeWhile isLowerC
    if run = [] then none
    else
      match procUnitsF fuel (r.dropWhile isLowerC) with
      | some (u, rest) => some ('/' :: run ++ u, rest)
      | none => some ('/' :: run, r.dropWhile isLowerC)
  | _, _ => none

def procUnits (l : List Char) : Option (List Char × List Char) :=
  procUnitsF l.length l

/-- Optional process tag.  When the tag group matches, the colon of the main
pattern must follow it; when it does not, or when retrying without it, the
colon must stand at the start, where the tag would have begun with the letter
p, so trying the tag first and falling back to not consuming it is exact. -/
def procTok (l : List Char) : Option (List Char) × List Char :=
  match dropLit (("postfix").data) l with
  | none => (none, l)
  | some r =>
    match procUnits r with
    | none => (none, l)
    | some (u, r1) =>
      match r1 with
      | '[' :: r2 =>
        let ds := r2.takeWhile isDigitC
        if ds = [] then (none, l)
        else match r2.dropWhile isDigitC with
          | ']' :: r3 => (some (("postfix").data ++ u ++ '[' :: (ds ++ [']'])), r3)
          | _ => (none, l)
      | _ => (none, l)

/-- Split a region at its rightmost closing bracket: the part before, and the
part after.  Dotted repetition before a bracket literal resolves to exactly
this split. -/
def bracketClose : List Char → Option (List Char × List Char)
  | [] => none
  | c :: t =>
    match bracketClose t with
    | some (b, r) => some (c :: b, r)
    | none => if c = ']' then some ([], t) else none

/-- Split a region as text, opening bracket, text, rightmost viable closing
bracket: the rightmost opening bracket is preferred, falling back leftward
when no nonempty closing part exists for it, exactly as the backtracking
search of dot-plus, bracket, dot-plus, bracket proceeds. -/
def clientSplit : List Char → Option (List Char × List Char × List Char)
  | [] => none
  | c :: t =>
    match clientSplit t with
    | some (a, b, r) => some (c :: a, b, r)
    | none =>
      if c = '[' then
        match bracketClose t with
        | some (b, r) => if b = [] then none else some ([], b, r)
        | none => none
      else none

/-- Optional client sub-group: the literal, then hostname text, an opening
bracket, address text and a closing bracket, all within the current line
region (dot does not match a newline).  Returns consumed text, the two
captures and the rest; absence means the group did not participate. -/
def tryClient (l : List Char) : Option (List Char × List Char × List Char × List Char) :=
  match dropLit (("client=").data) l with
  | none => none
  | some r =>
    let d := r.takeWhile (· != '\n')
    let tail := r.dropWhile (· != '\n')
    match clientSplit d with
    | none => none
    | some (a, b, rest) =>
      if a = [] then none
      else some ((("client=").data ++ a ++ '[' :: (b ++ [']'])), a, b, rest ++ tail)

/-- Optional message-id sub-group: the literal, any characters other than a
closing angle bracket (possibly none), then the closing angle bracket. -/
def tryMid (l : List Char) : Option (List Char × List Char × List Char) :=
  match dropLit (("message-id=<").data) l with
  | none => none
  | some r =>
    let cap := r.takeWhile (· != '>')
    match r.dropWhile (· != '>') with
    | '>' :: rest => some ((("message-id=<").data ++ cap ++ ['>']), cap, rest)
    | _ => none

/-- Whether the maximal bracket-free run can be split as nonempty text, an at
sign, nonempty text — the address shape both address sub-patterns demand.
The capture is always the whole run, whichever at sign is chosen. -/
def hasInnerAt (r : List Char) : Bool := (r.drop 1).dropLast.contains '@'

/-- Optional sender sub-group: the literal, an address with an inner at sign,
the closing angle bracket. -/
def tryFrom (l : List Char) : Option (List Char × List Char × List Char) :=
  match dropLit (("from=<").data) l with
  | none => none
  | some r =>
    let cap := r.takeWhile (· != '>')
    match r.dropWhile (· != '>') with
    | '>' :: rest =>
      if hasInnerAt cap then some ((("from=<").data ++ cap ++ ['>']), cap, rest) else none
    | _ => none

/-- Rightmost occurrence of the status literal followed by at least one
lowercase letter; returns the text consumed through the letter run, the
letter run, and the rest.  Dot-star before a literal prefers the rightmost
viable occurrence. -/
def statusSearch : List Char → Option (List Char × List Char × List Char)
  | [] => none
  | c :: t =>
    match statusSearch t with
    | some (con, st, r) => some (c :: con, st, r)
    | none =>
      match dropLit (("status=").data) (c :: t) with
      | some after =>
        let run := after.takeWhile isLowerC
        if run = [] then none
        else some ((("status=").data ++ run), run, after.dropWhile isLowerC)
      | none => none

/-- Optional recipient sub-group: the literal and an address as in the sender
group, then any text up to the rightmost status occurrence within the line
region; with no status occurrence the whole group does not participate. -/
def tryTo (l : List Char) : Option (List Char × List Char × List Char × List Char) :=
  match dropLit (("to=<").data) l with
  | none => none
  | some r =>
    let cap := r.takeWhile (· != '>')
    match r.dropWhile (· != '>') with
    | '>' :: rest =>
      if hasInnerAt cap then
        let t := rest.takeWhile (· != '\n')
        let tail := rest.dropWhile (· != '\n')
        match statusSearch t with
        | some (con, st, r2) => some ((("to=<").data ++ cap ++ '>' :: con), cap, st, r2 ++ tail)
        | none => none
      else none
    | _ => none

/-- Captures of the details region. -/
structure Details where
  text : List Char
  clientHost : Option (List Char)
  clientIp : Option (List Char)
  messageId : Option (List Char)
  fromAddr : Option (List Char)
  toAddr : Option (List Char)
  status : Option (List Char)
deriving DecidableEq

/-- Outcome of the optional client sub-group: consumed text, captures and
rest, with nothing consumed when the group does not participate. -/
def runClient (l : List Char) :
    List Char × Option (List Char) × Option (List Char) × List Char :=
  match tryClient l with
  | some (con, a, b, r) => (con, some a, some b, r)
  | none => ([], none, none, l)

/-- Outcome of the optional message-id sub-group. -/
def runMid (l : List Char) : List Char × Option (List Char) × List Char :=
  match tryMid l with
  | some (con, cap, r) => (con, some cap, r)
  | none => ([], none, l)

/-- Outcome of the optional sender sub-group. -/
def runFrom (l : List Char) : List Char × Option (List Char) × List Char :=
  match tryFrom l with
  | some (con, cap, r) => (con, some cap, r)
  | none => ([], none, l)

/-- Outcome of the optional recipient sub-group. -/
def runTo (l : List Char) :
    List Char × Option (List Char) × Option (List Char) × List Char :=
  match tryTo l with
  | some (con, cap, st, r) => (con, some cap, some st, r)
  | none => ([], none, none, l)

/-- The details region: each optional sub-group in order, then any remaining
text of the line region.  Everything after each sub-group always matches, so
each group binds greedily when it can and is skipped exactly when it cannot. -/
def detailsRun (l : List Char) : Details :=
  let s1 := runClient l
  let s2 := runMid s1.2.2.2
  let s3 := runFrom s2.2.2
  let s4 := runTo s3.2.2
  let tl := s4.2.2.2.takeWhile (· != '\n')
  ⟨s1.1 ++ s2.1 ++ s3.1 ++ s4.1 ++ tl, s1.2.1, s1.2.2.1, s2.2.1, s3.2.1,
    s4.2.1, s4.2.2.1⟩

/-- Captures of the whole pattern.  The timestamp, hostname, queue-id and
details groups always participate in a successful match (possibly capturing
empty text); the process tag and the six detail sub-captures may not. -/
structure Groups where
  time : List Char
  host : List Char
  process : Option (List Char)
  queue : List Char
  details : List Char
  clientHost : Option (List Char)
  clientIp : Option (List Char)
  messageId : Option (List Char)
  fromAddr : Option (List Char)
  toAddr : Option (List Char)
  status : Option (List Char)
deriving DecidableEq

/-- The compiled pattern, applied at the start of the line: timestamp, space,
hostname run, space, optional process tag, colon-space, queue-id run,
optional colon-space, details.  The hostname and queue-id runs stop exactly
at the first character outside their class, since a character given back from
either run can never match the element that follows. -/
def matchLine (l : List Char) : Option Groups :=
  match timeTok l with
  | none => none
  | some (tm, l1) =>
    match l1 with
    | ' ' :: l2 =>
      let host := l2.takeWhile isHostC
      let l3 := l2.dropWhile isHostC
      match l3 with
      | ' ' :: l4 =>
        let pr := procTok l4
        match dropLit ([':', ' ']) pr.2 with
        | none => none
        | some l6 =>
          let q := l6.takeWhile isQueueC
          let l7 := l6.dropWhile isQueueC
          let l8 := match dropLit ([':', ' ']) l7 with
            | some x => x
            | none => l7
          let d := detailsRun l8
          some ⟨tm, host, pr.1, q, d.text, d.clientHost, d.clientIp,
            d.messageId, d.fromAddr, d.toAddr, d.status⟩
      | _ => none
    | _ => none

/-- Parsed single-line record, one field per capture with empty-string
defaults; only the timestamp may be genuinely absent. -/
structure LogFormat where
  time : Option DateTime
  hostname : String
  process : String
  queue_id : String
  messages : String
  client_hostname : String
  client_ip : String
  message_id : String
  from_addr : String
  to_addr : String
  status : String
deriving DecidableEq

/-- Empty-string default for a capture that did not participate. -/
def optStr (o : Option (List Char)) : String := String.mk (o.getD [])

/-- Record construction from the captures, mirroring the field list of the
source constructor: each capture falls back to the empty string, and the
timestamp capture is resolved through the timestamp resolver. -/
def groupsToRecord (year : Nat) (g : Groups) : LogFormat where
  time := if g.time = [] then none else parse_time year (String.mk g.time)
  hostname := String.mk g.host
  process := optStr g.process
  queue_id := String.mk g.queue
  messages := String.mk g.details
  client_hostname := optStr g.clientHost
  client_ip := optStr g.clientIp
  message_id := optStr g.messageId
  from_addr := optStr g.fromAddr
  to_addr := optStr g.toAddr
  status := optStr g.status

/-- Leading and trailing whitespace removal, as str.strip performs. -/
def pyStrip (l : List Char) : List Char :=
  ((l.dropWhile isSpaceC).reverse.dropWhile isSpaceC).reverse

/-- Single-line parse: strip, reject blank lines, apply the pattern, build
the record; a line the pattern rejects yields absence, not an error. -/
def parse_line (year : Nat) (line : String) : Option LogFormat :=
  let l := pyStrip line.data
  if l = [] then none
  else (matchLine l).map (groupsToRecord year)

/-- One delivery attempt recorded against a transaction. -/
structure Message where
  time : Option DateTime
  to_addr : String
  status : String
  message : String
deriving DecidableEq

/-- Consolidated transaction keyed by queue id. -/
structure PostfixLogEntry where
  time : Option DateTime := none
  hostname : String := ""
  process : String := ""
  queue_id : String := ""
  client_hostname : String := ""
  client_ip : String := ""
  message_id : String := ""
  from_addr : String := ""
  messages : List Message := []
deriving DecidableEq

/-- Live transaction map: insertion-ordered association list, as a dict keyed
by queue id. -/
abbrev QueueMap := List (String × PostfixLogEntry)

/-- Dictionary lookup: first binding of the key. -/
def lookupQ : QueueMap → String → Option PostfixLogEntry
  | [], _ => none
  | (k, v) :: t, key => if k = key then some v else lookupQ t key

/-- Dictionary in-place update: replace the first binding of the key,
preserving its position. -/
def updateQ : QueueMap → String → PostfixLogEntry → QueueMap
  | [], _, _ => []
  | (k, v) :: t, key, e => if k = key then (key, e) :: t else (k, v) :: updateQ t key e

/-- Dictionary pop: remove the first binding of the key. -/
def eraseQ : QueueMap → String → QueueMap
  | [], _ => []
  | (k, v) :: t, key => if k = key then t else (k, v) :: eraseQ t key

/-- Client-connection step of process_line: a nonempty client hostname is
the authoritative source and overwrites timestamp, hostname, process tag and
the two client fields unconditionally. -/
def stepClient (e : PostfixLogEntry) (lf : LogFormat) : PostfixLogEntry :=
  if lf.client_hostname ≠ "" then
    { e with time := lf.time, hostname := lf.hostname, process := lf.process,
             client_hostname := lf.client_hostname, client_ip := lf.client_ip }
  else e

/-- Message-id step: store the id; under the fallback flag, while the
timestamp is still absent, also copy timestamp, hostname and process tag. -/
def stepMid (fb : Bool) (e : PostfixLogEntry) (lf : LogFormat) : PostfixLogEntry :=
  if lf.message_id ≠ "" then
    let e2 := { e with message_id := lf.message_id }
    if fb then
      if e.time = none then
        { e2 with time := lf.time, hostname := lf.hostname, process := lf.process }
      else e2
    else e2
  else e

/-- Sender step: store the address, with the same fallback adoption rule. -/
def stepFrom (fb : Bool) (e : PostfixLogEntry) (lf : LogFormat) : PostfixLogEntry :=
  if lf.from_addr ≠ "" then
    let e2 := { e with from_addr := lf.from_addr }
    if fb then
      if e.time = none then
        { e2 with time := lf.time, hostname := lf.hostname, process := lf.process }
      else e2
    else e2
  else e

/-- Recipient step: append a delivery attempt carrying the line's timestamp,
recipient, status and raw tail, with the same fallback adoption rule. -/
def stepTo (fb : Bool) (e : PostfixLogEntry) (lf : LogFormat) : PostfixLogEntry :=
  if lf.to_addr ≠ "" then
    let e2 := { e with
      messages := e.messages ++ [⟨lf.time, lf.to_addr, lf.status, lf.messages⟩] }
    if fb then
      if e.time = none then
        { e2 with time := lf.time, hostname := lf.hostname, process := lf.process }
      else e2
    else e2
  else e

/-- Field-update steps of process_line applied to the entry of the line's
queue id, in source order: client connection, message id, sender, recipient. -/
def updateEntry (fb : Bool) (e0 : PostfixLogEntry) (lf : LogFormat) : PostfixLogEntry :=
  stepTo fb (stepFrom fb (stepMid fb (stepClient e0 lf) lf) lf) lf

/-- Entry as freshly created for a queue id: only the id is set. -/
def freshE (qid : String) : PostfixLogEntry := { queue_id := qid }

/-- Create the entry for a queue id not yet in the map, appended at the end
as dict insertion does. -/
def ensureQ (m : QueueMap) (qid : String) : QueueMap :=
  if (lookupQ m qid).isSome then m else m ++ [(qid, freshE qid)]

/-- Correlation step for one parsed record with nonempty queue id: create the
entry when the id is new, apply the field updates, then check the terminal
marker after those updates — a removed line pops and returns the (already
updated) entry, any other line stores it back and returns nothing. -/
def processRecord (fb : Bool) (m : QueueMap) (lf : LogFormat) :
    Option PostfixLogEntry × QueueMap :=
  let m1 := ensureQ m lf.queue_id
  let e0 := (lookupQ m1 lf.queue_id).getD (freshE lf.queue_id)
  let e := updateEntry fb e0 lf
  if lf.messages = "removed" then (some e, eraseQ m1 lf.queue_id)
  else (none, updateQ m1 lf.queue_id e)

/-- process_line: parse, drop unparsable lines and lines with an empty queue
id, then correlate. -/
def processLine (fb : Bool) (year : Nat) (m : QueueMap) (line : String) :
    Option PostfixLogEntry × QueueMap :=
  match parse_line year line with
  | none => (none, m)
  | some lf => if lf.queue_id = "" then (none, m) else processRecord fb m lf

/-- Fold of processLine over a line sequence, keeping the per-line emission. -/
def processAll (fb : Bool) (year : Nat) (m : QueueMap) :
    List String → List (Option PostfixLogEntry) × QueueMap
  | [] => ([], m)
  | l :: ls =>
    let p := processLine fb year m l
    let q := processAll fb year p.2 ls
    (p.1 :: q.1, q.2)

/-- Fold of processRecord over already-parsed records. -/
def processRecords (fb : Bool) (m : QueueMap) :
    List LogFormat → List (Option PostfixLogEntry) × QueueMap
  | [] => ([], m)
  | r :: rs =>
    let p := processRecord fb m r
    let q := processRecords fb p.2 rs
    (p.1 :: q.1, q.2)

/-- get_remaining_entries: the values still resident in the live map, in
insertion order; the map itself is returned unchanged — the source merely
copies the dict values into a list. -/
def get_remaining_entries (m : QueueMap) : List PostfixLogEntry × QueueMap :=
  (m.map (fun p => p.2), m)

/-- Well-formedness of the live map: every entry is stored under its own
queue id, and keys are unique, as in a dict. -/
def MapWf (m : QueueMap) : Prop :=
  (∀ p ∈ m, p.2.queue_id = p.1) ∧ (m.map Prod.fst).Nodup

theorem lookupQ_append_right (m : QueueMap) (k : String) (e : PostfixLogEntry)
    (h : lookupQ m k = none) : lookupQ (m ++ [(k, e)]) k = some e := by
  induction m with
  | nil => simp [lookupQ]
  | cons p t ih =>
    obtain ⟨k0, v0⟩ := p
    by_cases hk : k0 = k
    · simp [lookupQ, hk] at h
    · simp only [lookupQ, hk, if_false] at h
      simpa [lookupQ, hk] using ih h

theorem lookupQ_updateQ_self (m : QueueMap) (k : String) (e v : PostfixLogEntry)
    (h : lookupQ m k = some v) : lookupQ (updateQ m k e) k = some e := by
  induction m with
  | nil => simp [lookupQ] at h
  | cons p t ih =>
    obtain ⟨k0, v0⟩ := p
    by_cases hk : k0 = k
    · simp [lookupQ, updateQ, hk]
    · simp only [lookupQ, hk, if_false] at h
      simpa [updateQ, lookupQ, hk] using ih h

theorem lookupQ_updateQ_ne (m : QueueMap) (k k2 : String) (e : PostfixLogEntry)
    (h : k2 ≠ k) : lookupQ (updateQ m k e) k2 = lookupQ m k2 := by
  induction m with
  | nil => simp [updateQ]
  | cons p t ih =>
    obtain ⟨k0, v0⟩ := p
    by_cases hk : k0 = k
    · subst hk
      simp [updateQ, lookupQ, Ne.symm h]
    · by_cases h2 : k0 = k2 <;> simp [updateQ, lookupQ, hk, h2, ih, h]

theorem lookupQ_eraseQ_ne (m : QueueMap) (k k2 : String) (h : k2 ≠ k) :
    lookupQ (eraseQ m k) k2 = lookupQ m k2 := by
  induction m with
  | nil => simp [eraseQ]
  | cons p t ih =>
    obtain ⟨k0, v0⟩ := p
    by_cases hk : k0 = k
    · subst hk
      simp [eraseQ, lookupQ, Ne.symm h]
    · by_cases h2 : k0 = k2 <;> simp [eraseQ, lookupQ, hk, h2, ih, h]

theorem lookupQ_eq_none_of_not_mem (m : QueueMap) (k : String)
    (h : k ∉ m.map Prod.fst) : lookupQ m k = none := by
  induction m with
  | nil => simp [lookupQ]
  | cons p t ih =>
    obtain ⟨k0, v0⟩ := p
    simp only [List.map_cons, List.mem_cons, not_or] at h
    simp [lookupQ, Ne.symm h.1, ih h.2]

theorem mem_map_fst_of_lookupQ_some (m : QueueMap) (k : String)
    (v : PostfixLogEntry) (h : lookupQ m k = some v) : k ∈ m.map Prod.fst := by
  induction m with
  | nil => simp [lookupQ] at h
  | cons p t ih =>
    obtain ⟨k0, v0⟩ := p
    by_cases hk : k0 = k
    · simp [hk]
    · simp only [lookupQ, hk, if_false] at h
      simp [ih h]

theorem lookupQ_eraseQ_self (m : QueueMap) (k : String)
    (h : (m.map Prod.fst).Nodup) : lookupQ (eraseQ m k) k = none := by
  induction m with
  | nil => simp [eraseQ, lookupQ]
  | cons p t ih =>
    obtain ⟨k0, v0⟩ := p
    simp only [List.map_cons, List.nodup_cons] at h
    by_cases hk : k0 = k
    · subst hk
      simp only [eraseQ, if_pos rfl]
      exact lookupQ_eq_none_of_not_mem t k0 h.1
    · simp [eraseQ, lookupQ, hk, ih h.2]

theorem lookupQ_ensureQ_self (m : QueueMap) (k : String) :
    lookupQ (ensureQ m k) k = some ((lookupQ m k).getD (freshE k)) := by
  unfold ensureQ
  cases h : lookupQ m k with
  | some v => simp [h]
  | none => simp [h, lookupQ_append_right m k _ h]

theorem keys_updateQ (m : QueueMap) (k : String) (e : PostfixLogEntry) :
    (updateQ m k e).map Prod.fst = m.map Prod.fst := by
  induction m with
  | nil => simp [updateQ]
  | cons p t ih =>
    obtain ⟨k0, v0⟩ := p
    by_cases hk : k0 = k <;> simp [updateQ, hk, ih]

theorem keys_eraseQ_sublist (m : QueueMap) (k : String) :
    ((eraseQ m k).map Prod.fst).Sublist (m.map Prod.fst) := by
  induction m with
  | nil => simp [eraseQ]
  | cons p t ih =>
    obtain ⟨k0, v0⟩ := p
    by_cases hk : k0 = k
    · simp only [eraseQ, if_pos hk, List.map_cons]
      exact (List.sublist_cons_self _ _)
    · simp only [eraseQ, hk, if_false, List.map_cons]
      exact ih.cons₂ _

theorem mem_eraseQ (m : QueueMap) (k : String) (p : String × PostfixLogEntry)
    (h : p ∈ eraseQ m k) : p ∈ m := by
  induction m with
  | nil => simp [eraseQ] at h
  | cons q t ih =>
    obtain ⟨k0, v0⟩ := q
    by_cases hk : k0 = k
    · simp only [eraseQ, if_pos hk] at h
      exact List.mem_cons_of_mem _ h
    · simp only [eraseQ, hk, if_false, List.mem_cons] at h
      rcases h with h | h
      · exact h ▸ List.mem_cons_self _ _
      · exact List.mem_cons_of_mem _ (ih h)

theorem mem_updateQ (m : QueueMap) (k : String) (e : PostfixLogEntry)
    (p : String × PostfixLogEntry) (h : p ∈ updateQ m k e) :
    p ∈ m ∨ p = (k, e) := by
  induction m with
  | nil => simp [updateQ] at h
  | cons q t ih =>
    obtain ⟨k0, v0⟩ := q
    by_cases hk : k0 = k
    · simp only [updateQ, if_pos hk, List.mem_cons] at h
      rcases h with h | h
      · exact Or.inr h
      · exact Or.inl (List.mem_cons_of_mem _ h)
    · simp only [updateQ, hk, if_false, List.mem_cons] at h
      rcases h with h | h
      · exact Or.inl (h ▸ List.mem_cons_self _ _)
      · rcases ih h with h2 | h2
        · exact Or.inl (List.mem_cons_of_mem _ h2)
        · exact Or.inr h2

theorem stepClient_stable (e : PostfixLogEntry) (lf : LogFormat) :
    (stepClient e lf).queue_id = e.queue_id ∧
    (stepClient e lf).message_id = e.message_id ∧
    (stepClient e lf).from_addr = e.from_addr ∧
    (stepClient e lf).messages = e.messages := by
  unfold stepClient
  split_ifs <;> exact ⟨rfl, rfl, rfl, rfl⟩

theorem stepMid_stable (fb : Bool) (e : PostfixLogEntry) (lf : LogFormat) :
    (stepMid fb e lf).queue_id = e.queue_id ∧
    (stepMid fb e lf).client_hostname = e.client_hostname ∧
    (stepMid fb e lf).client_ip = e.client_ip ∧
    (stepMid fb e lf).from_addr = e.from_addr ∧
    (stepMid fb e lf).messages = e.messages := by
  unfold stepMid
  split_ifs <;> exact ⟨rfl, rfl, rfl, rfl, rfl⟩

theorem stepFrom_stable (fb : Bool) (e : PostfixLogEntry) (lf : LogFormat) :
    (stepFrom fb e lf).queue_id = e.queue_id ∧
    (stepFrom fb e lf).client_hostname = e.client_hostname ∧
    (stepFrom fb e lf).client_ip = e.client_ip ∧
    (stepFrom fb e lf).message_id = e.message_id ∧
    (stepFrom fb e lf).messages = e.messages := by
  unfold stepFrom
  split_ifs <;> exact ⟨rfl, rfl, rfl, rfl, rfl⟩

theorem stepTo_stable (fb : Bool) (e : PostfixLogEntry) (lf : LogFormat) :
    (stepTo fb e lf).queue_id = e.queue_id ∧
    (stepTo fb e lf).client_hostname = e.client_hostname ∧
    (stepTo fb e lf).client_ip = e.client_ip ∧
    (stepTo fb e lf).message_id = e.message_id ∧
    (stepTo fb e lf).from_addr = e.from_addr := by
  unfold stepTo
  split_ifs <;> exact ⟨rfl, rfl, rfl, rfl, rfl⟩

theorem updateEntry_queue_id (fb : Bool) (e0 : PostfixLogEntry) (lf : LogFormat) :
    (updateEntry fb e0 lf).queue_id = e0.queue_id := by
  unfold updateEntry
  rw [(stepTo_stable fb _ lf).1, (stepFrom_stable fb _ lf).1, (stepMid_stable fb _ lf).1,
    (stepClient_stable _ lf).1]

theorem stepFrom_from_addr (fb : Bool) (e : PostfixLogEntry) (lf : LogFormat) :
    (stepFrom fb e lf).from_addr =
      if lf.from_addr = "" then e.from_addr else lf.from_addr := by
  unfold stepFrom
  split_ifs <;> simp_all

theorem updateEntry_from_addr (fb : Bool) (e0 : PostfixLogEntry) (lf : LogFormat) :
    (updateEntry fb e0 lf).from_addr =
      if lf.from_addr = "" then e0.from_addr else lf.from_addr := by
  unfold updateEntry
  rw [(stepTo_stable fb _ lf).2.2.2.2, stepFrom_from_addr,
    (stepMid_stable fb _ lf).2.2.2.1, (stepClient_stable _ lf).2.2.1]

theorem stepMid_message_id (fb : Bool) (e : PostfixLogEntry) (lf : LogFormat) :
    (stepMid fb e lf).message_id =
      if lf.message_id = "" then e.message_id else lf.message_id := by
  unfold stepMid
  split_ifs <;> simp_all

theorem updateEntry_message_id (fb : Bool) (e0 : PostfixLogEntry) (lf : LogFormat) :
    (updateEntry fb e0 lf).message_id =
      if lf.message_id = "" then e0.message_id else lf.message_id := by
  unfold updateEntry
  rw [(stepTo_stable fb _ lf).2.2.2.1, (stepFrom_stable fb _ lf).2.2.2.1,
    stepMid_message_id, (stepClient_stable _ lf).2.1]

theorem stepClient_client_fields (e : PostfixLogEntry) (lf : LogFormat) :
    (stepClient e lf).client_hostname =
      (if lf.client_hostname = "" then e.client_hostname else lf.client_hostname) ∧
    (stepClient e lf).client_ip =
      (if lf.client_hostname = "" then e.client_ip else lf.client_ip) := by
  unfold stepClient
  split_ifs <;> simp_all

theorem updateEntry_client_hostname (fb : Bool) (e0 : PostfixLogEntry) (lf : LogFormat) :
    (updateEntry fb e0 lf).client_hostname =
      (if lf.client_hostname = "" then e0.client_hostname else lf.client_hostname) ∧
    (updateEntry fb e0 lf).client_ip =
      (if lf.client_hostname = "" then e0.client_ip else lf.client_ip) := by
  unfold updateEntry
  rw [(stepTo_stable fb _ lf).2.1, (stepFrom_stable fb _ lf).2.1,
    (stepMid_stable fb _ lf).2.1, (stepTo_stable fb _ lf).2.2.1,
    (stepFrom_stable fb _ lf).2.2.1, (stepMid_stable fb _ lf).2.2.1]
  exact stepClient_client_fields e0 lf

theorem stepTo_messages (fb : Bool) (e : PostfixLogEntry) (lf : LogFormat) :
    (stepTo fb e lf).messages = e.messages ++
      (if lf.to_addr = "" then [] else [⟨lf.time, lf.to_addr, lf.status, lf.messages⟩]) := by
  unfold stepTo
  split_ifs <;> simp_all

theorem updateEntry_messages_eq (fb : Bool) (e0 : PostfixLogEntry) (lf : LogFormat) :
    (updateEntry fb e0 lf).messages = e0.messages ++
      (if lf.to_addr = "" then [] else [⟨lf.time, lf.to_addr, lf.status, lf.messages⟩]) := by
  unfold updateEntry
  rw [stepTo_messages, (stepFrom_stable fb _ lf).2.2.2.2,
    (stepMid_stable fb _ lf).2.2.2.2, (stepClient_stable _ lf).2.2.2]

/-- The three fields that fallback adoption writes, bundled. -/
def thpEq (e : PostfixLogEntry) (lf : LogFormat) : Prop :=
  e.time = lf.time ∧ e.hostname = lf.hostname ∧ e.process = lf.process

theorem stepMid_thp (fb : Bool) (e : PostfixLogEntry) (lf : LogFormat)
    (h : thpEq e lf) : thpEq (stepMid fb e lf) lf := by
  unfold stepMid thpEq
  obtain ⟨h1, h2, h3⟩ := h
  split_ifs <;> simp_all

theorem stepFrom_thp (fb : Bool) (e : PostfixLogEntry) (lf : LogFormat)
    (h : thpEq e lf) : thpEq (stepFrom fb e lf) lf := by
  unfold stepFrom thpEq
  obtain ⟨h1, h2, h3⟩ := h
  split_ifs <;> simp_all

theorem stepTo_thp (fb : Bool) (e : PostfixLogEntry) (lf : LogFormat)
    (h : thpEq e lf) : thpEq (stepTo fb e lf) lf := by
  unfold stepTo thpEq
  obtain ⟨h1, h2, h3⟩ := h
  split_ifs <;> simp_all

theorem updateEntry_client_fields (fb : Bool) (e0 : PostfixLogEntry) (lf : LogFormat)
    (hc : lf.client_hostname ≠ "") :
    (updateEntry fb e0 lf).time = lf.time ∧
    (updateEntry fb e0 lf).hostname = lf.hostname ∧
    (updateEntry fb e0 lf).process = lf.process ∧
    (updateEntry fb e0 lf).client_hostname = lf.client_hostname ∧
    (updateEntry fb e0 lf).client_ip = lf.client_ip := by
  have hch := updateEntry_client_hostname fb e0 lf
  simp only [if_neg hc] at hch
  have h1 : thpEq (stepClient e0 lf) lf := by
    unfold stepClient thpEq
    rw [if_pos hc]
    exact ⟨rfl, rfl, rfl⟩
  have h4 := stepTo_thp fb _ lf (stepFrom_thp fb _ lf (stepMid_thp fb _ lf h1))
  exact ⟨h4.1, h4.2.1, h4.2.2, hch.1, hch.2⟩

theorem updateEntry_noop (fb : Bool) (e0 : PostfixLogEntry) (lf : LogFormat)
    (h1 : lf.client_hostname = "") (h2 : lf.message_id = "")
    (h3 : lf.from_addr = "") (h4 : lf.to_addr = "") :
    updateEntry fb e0 lf = e0 := by
  unfold updateEntry stepClient stepMid stepFrom stepTo
  simp [h1, h2, h3, h4]

/-- C3: a record carrying a nonempty client hostname overwrites the
transaction's timestamp, hostname, process tag, client hostname and client ip
with that line's values, whatever the prior entry held; the entry holding
those values is the one emitted (on a removed line) or stored back in the
live map (otherwise). -/
theorem c3_client_overwrite (fb : Bool) (m : QueueMap) (lf : LogFormat)
    (hc : lf.client_hostname ≠ "") :
    ∃ e, ((processRecord fb m lf).1 = some e ∨
          lookupQ (processRecord fb m lf).2 lf.queue_id = some e) ∧
      e.time = lf.time ∧ e.hostname = lf.hostname ∧ e.process = lf.process ∧
      e.client_hostname = lf.client_hostname ∧ e.client_ip = lf.client_ip := by
  refine ⟨updateEntry fb ((lookupQ (ensureQ m lf.queue_id) lf.queue_id).getD
    (freshE lf.queue_id)) lf, ?_, updateEntry_client_fields fb _ lf hc⟩
  simp only [processRecord]
  split_ifs with h
  · exact Or.inl rfl
  · right
    exact lookupQ_updateQ_self _ _ _ _ (lookupQ_ensureQ_self m lf.queue_id)

def c3lf : LogFormat :=
  { time := none, hostname := "host9", process := "proc9", queue_id := "Q9",
    messages := "client=ch9[ip9]", client_hostname := "ch9", client_ip := "ip9",
    message_id := "", from_addr := "", to_addr := "", status := "" }

theorem c3_witness :
    ∃ e, ((processRecord false [] c3lf).1 = some e ∨
          lookupQ (processRecord false [] c3lf).2 c3lf.queue_id = some e) ∧
      e.time = c3lf.time ∧ e.hostname = c3lf.hostname ∧ e.process = c3lf.process ∧
      e.client_hostname = c3lf.client_hostname ∧ e.client_ip = c3lf.client_ip :=
  c3_client_overwrite false [] c3lf (by decide)

/-- C6: the timestamp resolver returns absence on empty input; otherwise it
tries the ISO grammar with fractional seconds, then the one without, and
returns the first success; otherwise it prepends the current processing year
and parses with the syslog grammar, whose failure is again absence — the
resolver is a total function into an option, so no failure can escape it. -/
theorem c6_resolver_order (year : Nat) :
    parse_time year ("") = none ∧
    (∀ s : String, ∀ t : DateTime,
      strptimeIsoFrac s.data = some t → parse_time year s = some t) ∧
    (∀ s : String, ∀ t : DateTime, strptimeIsoFrac s.data = none →
      strptimeIsoNoFrac s.data = some t → parse_time year s = some t) ∧
    (∀ s : String, s ≠ "" → strptimeIsoFrac s.data = none →
      strptimeIsoNoFrac s.data = none →
      parse_time year s = strptimeSyslogYear ((toString year).data ++ ' ' :: s.data)) := by
  refine ⟨rfl, ?_, ?_, ?_⟩
  · intro s t h
    have hs : s.data ≠ [] := by
      intro he
      rw [he] at h
      simp [strptimeIsoFrac, parseIsoCore, num4] at h
    simp [parse_time, hs, h]
  · intro s t h1 h2
    have hs : s.data ≠ [] := by
      intro he
      rw [he] at h2
      simp [strptimeIsoNoFrac, parseIsoCore, num4] at h2
    simp [parse_time, hs, h1, h2]
  · intro s hs h1 h2
    have hs2 : s.data ≠ [] := by
      intro he
      exact hs (by cases s; simp_all)
    simp [parse_time, hs2, h1, h2]

theorem c6_witness :
    parse_time 2025 ("") = none ∧
    parse_time 2025 ("2023-10-10T04:02:08.5+02:00") =
      some ⟨2023, 10, 10, 4, 2, 8, 500000, some 7200000000⟩ ∧
    parse_time 2025 ("2023-10-10T04:02:08.1+04:30:15.25") =
      some ⟨2023, 10, 10, 4, 2, 8, 100000, some 16215250000⟩ ∧
    parse_time 2025 ("2023-10-10T04:02:08Z") = some ⟨2023, 10, 10, 4, 2, 8, 0, some 0⟩ ∧
    parse_time 2025 ("2023-10- 5T04:02:08Z") = some ⟨2023, 10, 5, 4, 2, 8, 0, some 0⟩ ∧
    parse_time 2025 ("Oct 10 04:02:08") =
      strptimeSyslogYear ((toString 2025).data ++ ' ' :: ("Oct 10 04:02:08").data) ∧
    parse_time 2025 ("2023-10-10T04:02:08+0430:15") =
      strptimeSyslogYear ((toString 2025).data ++ ' ' ::
        ("2023-10-10T04:02:08+0430:15").data) :=
  ⟨(c6_resolver_order 2025).1,
   (c6_resolver_order 2025).2.1 _ _ (by decide),
   (c6_resolver_order 2025).2.1 _ _ (by decide),
   (c6_resolver_order 2025).2.2.1 _ _ (by decide) (by decide),
   (c6_resolver_order 2025).2.2.1 _ _ (by decide) (by decide),
   (c6_resolver_order 2025).2.2.2 _ (by decide) (by decide) (by decide),
   (c6_resolver_order 2025).2.2.2 _ (by decide) (by decide) (by decide)⟩

/-- C7: get_remaining_entries returns every transaction still resident in
the live map and removes none of them: after processing a single sender-only
line (not a removed line) the drain yields exactly that one transaction, the
map is unchanged by draining, and a second drain yields the same result. -/
theorem c7_drain_nondestructive (fb : Bool) (year : Nat) (line : String) (lf : LogFormat)
    (hp : parse_line year line = some lf) (hq : lf.queue_id ≠ "")
    (hf : lf.from_addr ≠ "") (hr : lf.messages ≠ "removed") :
    ∃ e, (processLine fb year [] line).1 = none ∧
      (get_remaining_entries (processLine fb year [] line).2).1 = [e] ∧
      e.queue_id = lf.queue_id ∧ e.from_addr = lf.from_addr ∧
      (get_remaining_entries (processLine fb year [] line).2).2 =
        (processLine fb year [] line).2 ∧
      (get_remaining_entries (get_remaining_entries (processLine fb year [] line).2).2).1 =
        (get_remaining_entries (processLine fb year [] line).2).1 := by
  have hstep : processLine fb year [] line =
      (none, [(lf.queue_id, updateEntry fb (freshE lf.queue_id) lf)]) := by
    simp only [processLine, hp, if_neg hq, processRecord, ensureQ, lookupQ,
      List.nil_append, if_pos rfl, Option.getD_some, if_neg hr, updateQ]
    simp [Option.isSome, lookupQ]
  refine ⟨updateEntry fb (freshE lf.queue_id) lf, ?_, ?_, ?_, ?_, ?_, ?_⟩
  · rw [hstep]
  · rw [hstep]; rfl
  · rw [updateEntry_queue_id]; rfl
  · rw [updateEntry_from_addr]; simp [hf]
  · rfl
  · rfl

theorem c7_witness :
    ∃ e, (processLine false 2025 []
        ("Oct 10 04:02:08 mail postfix/qmgr[1]: Q3: from=<a@b>, size=5")).1 = none ∧
      (get_remaining_entries (processLine false 2025 []
        ("Oct 10 04:02:08 mail postfix/qmgr[1]: Q3: from=<a@b>, size=5")).2).1 = [e] ∧
      e.queue_id = ("Q3") ∧ e.from_addr = ("a@b") ∧
      (get_remaining_entries (processLine false 2025 []
        ("Oct 10 04:02:08 mail postfix/qmgr[1]: Q3: from=<a@b>, size=5")).2).2 =
        (processLine false 2025 []
        ("Oct 10 04:02:08 mail postfix/qmgr[1]: Q3: from=<a@b>, size=5")).2 ∧
      (get_remaining_entries (get_remaining_entries (processLine false 2025 []
        ("Oct 10 04:02:08 mail postfix/qmgr[1]: Q3: from=<a@b>, size=5")).2).2).1 =
        (get_remaining_entries (processLine false 2025 []
        ("Oct 10 04:02:08 mail postfix/qmgr[1]: Q3: from=<a@b>, size=5")).2).1 := by
  obtain ⟨e, h1, h2, h3, h4, h5, h6⟩ := c7_drain_nondestructive false 2025
    ("Oct 10 04:02:08 mail postfix/qmgr[1]: Q3: from=<a@b>, size=5")
    { time := some ⟨2025, 10, 10, 4, 2, 8, 0, none⟩, hostname := "mail",
      process := "postfix/qmgr[1]", queue_id := "Q3",
      messages := "from=<a@b>, size=5", client_hostname := "", client_ip := "",
      message_id := "", from_addr := "a@b", to_addr := "", status := "" }
    (by decide) (by decide) (by decide) (by decide)
  exact ⟨e, h1, h2, h3, h4, h5, h6⟩

theorem lookupQ_append_ne (m : QueueMap) (k k2 : String) (e : PostfixLogEntry)
    (h : k2 ≠ k) : lookupQ (m ++ [(k, e)]) k2 = lookupQ m k2 := by
  induction m with
  | nil => simp [lookupQ, Ne.symm h]
  | cons p t ih =>
    obtain ⟨k0, v0⟩ := p
    by_cases hk : k0 = k2 <;> simp [lookupQ, hk, ih]

theorem lookupQ_ensureQ_ne (m : QueueMap) (k k2 : String) (h : k2 ≠ k) :
    lookupQ (ensureQ m k) k2 = lookupQ m k2 := by
  unfold ensureQ
  split_ifs with hs
  · rfl
  · exact lookupQ_append_ne m k k2 _ h

theorem lookupQ_isSome_of_mem (m : QueueMap) (k : String)
    (h : k ∈ m.map Prod.fst) : (lookupQ m k).isSome := by
  induction m with
  | nil => simp at h
  | cons p t ih =>
    obtain ⟨k0, v0⟩ := p
    by_cases hk : k0 = k
    · simp [lookupQ, hk]
    · simp only [List.map_cons, List.mem_cons] at h
      rcases h with h | h
      · exact absurd h.symm hk
      · simpa [lookupQ, hk] using ih h

theorem lookupQ_some_mem (m : QueueMap) (k : String) (v : PostfixLogEntry)
    (h : lookupQ m k = some v) : (k, v) ∈ m := by
  induction m with
  | nil => simp [lookupQ] at h
  | cons p t ih =>
    obtain ⟨k0, v0⟩ := p
    by_cases hk : k0 = k
    · subst hk
      simp only [lookupQ, eq_self_iff_true, if_true, Option.some.injEq] at h
      rw [← h]
      exact List.mem_cons_self _ _
    · simp only [lookupQ, hk, if_false] at h
      exact List.mem_cons_of_mem _ (ih h)

theorem eraseQ_append_of_none (m : QueueMap) (k : String) (e : PostfixLogEntry)
    (h : lookupQ m k = none) : eraseQ (m ++ [(k, e)]) k = m := by
  induction m with
  | nil => simp [eraseQ]
  | cons p t ih =>
    obtain ⟨k0, v0⟩ := p
    by_cases hk : k0 = k
    · simp [lookupQ, hk] at h
    · simp only [lookupQ, hk, if_false] at h
      simp [eraseQ, hk, ih h]

theorem mapWf_nil : MapWf [] := ⟨by simp, by simp⟩

theorem mapWf_ensureQ (m : QueueMap) (k : String) (h : MapWf m) :
    MapWf (ensureQ m k) := by
  unfold ensureQ
  split_ifs with hs
  · exact h
  · obtain ⟨hv, hn⟩ := h
    constructor
    · intro p hp
      rcases List.mem_append.mp hp with hp | hp
      · exact hv p hp
      · simp at hp
        simp [hp, freshE]
    · have hnot : k ∉ m.map Prod.fst := by
        intro hmem
        obtain ⟨v, hvv⟩ := Option.isSome_iff_exists.mp (lookupQ_isSome_of_mem m k hmem)
        simp [hvv] at hs
      simp [List.nodup_append, hn, hnot]

theorem mapWf_updateQ (m : QueueMap) (k : String) (e : PostfixLogEntry)
    (h : MapWf m) (he : e.queue_id = k) : MapWf (updateQ m k e) := by
  obtain ⟨hv, hn⟩ := h
  constructor
  · intro p hp
    rcases mem_updateQ m k e p hp with hp | hp
    · exact hv p hp
    · simp [hp, he]
  · rw [keys_updateQ]
    exact hn

theorem mapWf_eraseQ (m : QueueMap) (k : String) (h : MapWf m) :
    MapWf (eraseQ m k) := by
  obtain ⟨hv, hn⟩ := h
  exact ⟨fun p hp => hv p (mem_eraseQ m k p hp),
    hn.sublist (keys_eraseQ_sublist m k)⟩

theorem lookupQ_getD_queue_id (m : QueueMap) (k : String) (h : MapWf m) :
    ((lookupQ m k).getD (freshE k)).queue_id = k := by
  cases hl : lookupQ m k with
  | none => simp [freshE]
  | some v =>
    have := h.1 _ (lookupQ_some_mem m k v hl)
    simpa using this

theorem mapWf_processRecord (fb : Bool) (m : QueueMap) (lf : LogFormat)
    (h : MapWf m) : MapWf (processRecord fb m lf).2 := by
  have hwf1 := mapWf_ensureQ m lf.queue_id h
  simp only [processRecord]
  split_ifs with hr
  · exact mapWf_eraseQ _ _ hwf1
  · refine mapWf_updateQ _ _ _ hwf1 ?_
    rw [updateEntry_queue_id]
    have hl := lookupQ_ensureQ_self m lf.queue_id
    rw [hl]
    simp only [Option.getD_some]
    exact lookupQ_getD_queue_id m lf.queue_id h

theorem mapWf_processLine (fb : Bool) (year : Nat) (m : QueueMap) (line : String)
    (h : MapWf m) : MapWf (processLine fb year m line).2 := by
  unfold processLine
  cases parse_line year line with
  | none => exact h
  | some lf =>
    simp only
    split_ifs with hq
    · exact h
    · exact mapWf_processRecord fb m lf h

/-- The entry looked up when processing: prior entry if present, fresh
otherwise. -/
def entryBefore (m : QueueMap) (qid : String) : PostfixLogEntry :=
  (lookupQ m qid).getD (freshE qid)

theorem processRecord_not_removed (fb : Bool) (m : QueueMap) (lf : LogFormat)
    (hr : lf.messages ≠ ("removed")) :
    (processRecord fb m lf).1 = none ∧
    lookupQ (processRecord fb m lf).2 lf.queue_id =
      some (updateEntry fb (entryBefore m lf.queue_id) lf) := by
  constructor
  · simp [processRecord, if_neg hr]
  · simp only [processRecord, if_neg hr]
    have h1 := lookupQ_ensureQ_self m lf.queue_id
    rw [lookupQ_updateQ_self _ _ _ _ h1, h1]
    simp [entryBefore]

theorem processRecord_removed (fb : Bool) (m : QueueMap) (lf : LogFormat)
    (hr : lf.messages = ("removed")) (hwf : MapWf m) :
    (processRecord fb m lf).1 =
      some (updateEntry fb (entryBefore m lf.queue_id) lf) ∧
    lookupQ (processRecord fb m lf).2 lf.queue_id = none := by
  simp only [processRecord, if_pos hr]
  constructor
  · have h1 := lookupQ_ensureQ_self m lf.queue_id
    rw [h1]
    simp [entryBefore]
  · exact lookupQ_eraseQ_self _ _ (mapWf_ensureQ m lf.queue_id hwf).2

theorem processRecord_other_key (fb : Bool) (m : QueueMap) (lf : LogFormat)
    (k : String) (hk : k ≠ lf.queue_id) :
    lookupQ (processRecord fb m lf).2 k = lookupQ m k := by
  simp only [processRecord]
  split_ifs with hr
  · rw [lookupQ_eraseQ_ne _ _ _ hk, lookupQ_ensureQ_ne _ _ _ hk]
  · rw [lookupQ_updateQ_ne _ _ _ _ hk, lookupQ_ensureQ_ne _ _ _ hk]

/-- C5: recipient-carrying records are appended to the transaction's
delivery-attempt sequence in processing order: after records for the same id
carrying recipients R1 then R2 (neither a removed line), the stored sequence
is the prior sequence extended by the R1 attempt and then the R2 attempt. -/
theorem c5_attempt_order (fb : Bool) (m : QueueMap) (r1 r2 : LogFormat) (X : String)
    (h1q : r1.queue_id = X) (h2q : r2.queue_id = X)
    (h1t : r1.to_addr ≠ "") (h2t : r2.to_addr ≠ "")
    (h1r : r1.messages ≠ ("removed")) (h2r : r2.messages ≠ ("removed")) :
    ∃ e, lookupQ (processRecord fb (processRecord fb m r1).2 r2).2 X = some e ∧
      e.messages = (entryBefore m X).messages ++
        [⟨r1.time, r1.to_addr, r1.status, r1.messages⟩,
         ⟨r2.time, r2.to_addr, r2.status, r2.messages⟩] := by
  have s1 := (processRecord_not_removed fb m r1 h1r).2
  have s2 := (processRecord_not_removed fb (processRecord fb m r1).2 r2 h2r).2
  rw [h1q] at s1
  rw [h2q] at s2
  refine ⟨_, s2, ?_⟩
  have hb2 : entryBefore (processRecord fb m r1).2 X =
      updateEntry fb (entryBefore m X) r1 := by
    unfold entryBefore
    rw [s1]
    rfl
  rw [hb2, updateEntry_messages_eq, updateEntry_messages_eq,
    if_neg h1t, if_neg h2t, List.append_assoc]
  rfl

def c5r1 : LogFormat :=
  { time := none, hostname := "h", process := "p", queue_id := "X5",
    messages := "to=<r1@a>, status=sent", client_hostname := "", client_ip := "",
    message_id := "", from_addr := "", to_addr := "r1@a", status := "sent" }

def c5r2 : LogFormat :=
  { time := none, hostname := "h", process := "p", queue_id := "X5",
    messages := "to=<r2@a>, status=bounced", client_hostname := "", client_ip := "",
    message_id := "", from_addr := "", to_addr := "r2@a", status := "bounced" }

theorem c5_witness :
    ∃ e, lookupQ (processRecord false (processRecord false [] c5r1).2 c5r2).2 ("X5") =
        some e ∧
      e.messages = (entryBefore [] ("X5")).messages ++
        [⟨c5r1.time, c5r1.to_addr, c5r1.status, c5r1.messages⟩,
         ⟨c5r2.time, c5r2.to_addr, c5r2.status, c5r2.messages⟩] :=
  c5_attempt_order false [] c5r1 c5r2 ("X5") (by decide) (by decide) (by decide)
    (by decide) (by decide) (by decide)

theorem tryClient_shape (l : List Char) (t : List Char × List Char × List Char × List Char)
    (h : tryClient l = some t) : ∃ x, t.1 = 'c' :: x := by
  unfold tryClient at h
  split at h
  · exact absurd h (by simp)
  · simp only [] at h
    split at h
    · exact absurd h (by simp)
    · split_ifs at h
      simp only [Option.some.injEq] at h
      rw [← h]
      exact ⟨_, rfl⟩

theorem tryMid_shape (l : List Char) (t : List Char × List Char × List Char)
    (h : tryMid l = some t) : ∃ x, t.1 = 'm' :: x := by
  unfold tryMid at h
  split at h
  · exact absurd h (by simp)
  · split at h
    · simp only [Option.some.injEq] at h
      rw [← h]
      exact ⟨_, rfl⟩
    · exact absurd h (by simp)

theorem tryFrom_shape (l : List Char) (t : List Char × List Char × List Char)
    (h : tryFrom l = some t) : ∃ x, t.1 = 'f' :: x := by
  unfold tryFrom at h
  split at h
  · exact absurd h (by simp)
  · split at h
    · simp only [] at h
      split_ifs at h
      simp only [Option.some.injEq] at h
      rw [← h]
      exact ⟨_, rfl⟩
    · exact absurd h (by simp)

theorem tryTo_shape (l : List Char) (t : List Char × List Char × List Char × List Char)
    (h : tryTo l = some t) : ∃ x, t.1 = 't' :: x := by
  unfold tryTo at h
  split at h
  · exact absurd h (by simp)
  · split at h
    · simp only [] at h
      split_ifs at h
      split at h
      · simp only [Option.some.injEq] at h
        rw [← h]
        exact ⟨_, rfl⟩
      · exact absurd h (by simp)
    · exact absurd h (by simp)

/-- A details region whose whole text is the removed marker cannot have had
any sub-group participate: each participating sub-group contributes its
leading keyword to the region text, and none of the keywords starts with the
letter r. -/
theorem detailsRun_removed (l : List Char) (h : (detailsRun l).text = ("removed").data) :
    (detailsRun l).clientHost = none ∧ (detailsRun l).clientIp = none ∧
    (detailsRun l).messageId = none ∧ (detailsRun l).fromAddr = none ∧
    (detailsRun l).toAddr = none ∧ (detailsRun l).status = none := by
  unfold detailsRun at h ⊢
  simp only [] at h ⊢
  cases hc : tryClient l with
  | some t =>
    obtain ⟨x, hx⟩ := tryClient_shape l t hc
    obtain ⟨con, a, b, r⟩ := t
    simp only [runClient, hc] at h
    simp only at hx
    rw [hx] at h
    simp [List.cons_append] at h
  | none =>
  simp only [runClient, hc] at h ⊢
  cases hm : tryMid l with
  | some t =>
    obtain ⟨x, hx⟩ := tryMid_shape l t hm
    obtain ⟨con, cap, r⟩ := t
    simp only [runMid, hm] at h
    simp only at hx
    rw [hx] at h
    simp [List.cons_append] at h
  | none =>
  simp only [runMid, hm] at h ⊢
  cases hf : tryFrom l with
  | some t =>
    obtain ⟨x, hx⟩ := tryFrom_shape l t hf
    obtain ⟨con, cap, r⟩ := t
    simp only [runFrom, hf] at h
    simp only at hx
    rw [hx] at h
    simp [List.cons_append] at h
  | none =>
  simp only [runFrom, hf] at h ⊢
  cases ht : tryTo l with
  | some t =>
    obtain ⟨x, hx⟩ := tryTo_shape l t ht
    obtain ⟨con, cap, st, r⟩ := t
    simp only [runTo, ht] at h
    simp only at hx
    rw [hx] at h
    simp [List.cons_append] at h
  | none =>
  simp [runTo, ht]

theorem matchLine_details (l : List Char) (g : Groups) (h : matchLine l = some g) :
    ∃ l8, g.details = (detailsRun l8).text ∧ g.clientHost = (detailsRun l8).clientHost ∧
      g.clientIp = (detailsRun l8).clientIp ∧ g.messageId = (detailsRun l8).messageId ∧
      g.fromAddr = (detailsRun l8).fromAddr ∧ g.toAddr = (detailsRun l8).toAddr ∧
      g.status = (detailsRun l8).status := by
  unfold matchLine at h
  split at h
  · exact absurd h (by simp)
  · split at h
    · try simp only [] at h
      split at h
      · try simp only [] at h
        split at h
        · exact absurd h (by simp)
        · simp only [Option.some.injEq] at h
          rw [← h]
          exact ⟨_, rfl, rfl, rfl, rfl, rfl, rfl, rfl⟩
      · exact absurd h (by simp)
    · exact absurd h (by simp)

/-- A successfully parsed record whose raw tail is exactly the removed marker
carries no client, message-id, sender, recipient or status payload. -/
theorem removed_record_payload (year : Nat) (line : String) (lf : LogFormat)
    (hp : parse_line year line = some lf) (hm : lf.messages = ("removed")) :
    lf.client_hostname = "" ∧ lf.client_ip = "" ∧ lf.message_id = "" ∧
    lf.from_addr = "" ∧ lf.to_addr = "" ∧ lf.status = "" := by
  unfold parse_line at hp
  simp only [] at hp
  split_ifs at hp
  obtain ⟨g, hg, hgr⟩ := Option.map_eq_some'.mp hp
  obtain ⟨l8, hd, h1, h2, h3, h4, h5, h6⟩ := matchLine_details _ g hg
  have hdet : (detailsRun l8).text = ("removed").data := by
    rw [← hd]
    have hms : lf.messages = String.mk g.details := by rw [← hgr]; rfl
    rw [hms] at hm
    have h7 : String.mk g.details = String.mk (("removed").data) := hm
    exact String.ext_iff.mp h7
  obtain ⟨k1, k2, k3, k4, k5, k6⟩ := detailsRun_removed l8 hdet
  rw [← hgr]
  unfold groupsToRecord
  rw [h1, h2, h3, h4, h5, h6, k1, k2, k3, k4, k5, k6]
  exact ⟨rfl, rfl, rfl, rfl, rfl, rfl⟩

/-- C9: a removed line for a queue id not in the live map creates a fresh
transaction and returns it on that same line, with only the id set — all
string fields empty, timestamp absent, attempt sequence empty — and the live
map afterwards is exactly the prior map, still without that id. -/
theorem c9_removed_unknown_id (fb : Bool) (year : Nat) (m : QueueMap) (line : String)
    (lf : LogFormat) (hp : parse_line year line = some lf)
    (hm : lf.messages = ("removed")) (hq : lf.queue_id ≠ "")
    (habs : lookupQ m lf.queue_id = none) :
    processLine fb year m line = (some (freshE lf.queue_id), m) ∧
    lookupQ (processLine fb year m line).2 lf.queue_id = none ∧
    (freshE lf.queue_id).time = none ∧ (freshE lf.queue_id).hostname = "" ∧
    (freshE lf.queue_id).process = "" ∧ (freshE lf.queue_id).client_hostname = "" ∧
    (freshE lf.queue_id).client_ip = "" ∧ (freshE lf.queue_id).message_id = "" ∧
    (freshE lf.queue_id).from_addr = "" ∧ (freshE lf.queue_id).messages = [] := by
  obtain ⟨hch, hcip, hmid, hfa, hta, hst⟩ := removed_record_payload year line lf hp hm
  have hnoop : updateEntry fb (freshE lf.queue_id) lf = freshE lf.queue_id :=
    updateEntry_noop fb _ lf hch hmid hfa hta
  have hens : ensureQ m lf.queue_id = m ++ [(lf.queue_id, freshE lf.queue_id)] := by
    unfold ensureQ
    rw [habs]
    rfl
  have hl1 : lookupQ (ensureQ m lf.queue_id) lf.queue_id = some (freshE lf.queue_id) := by
    rw [hens]
    exact lookupQ_append_right m _ _ habs
  have hmain : processLine fb year m line = (some (freshE lf.queue_id), m) := by
    simp only [processLine, hp, if_neg hq, processRecord, hens]
    rw [lookupQ_append_right m _ _ habs]
    simp only [Option.getD_some, hnoop, if_pos hm]
    rw [eraseQ_append_of_none m _ _ habs]
  refine ⟨hmain, ?_, rfl, rfl, rfl, rfl, rfl, rfl, rfl, rfl⟩
  rw [hmain]
  exact habs

def c9lf : LogFormat :=
  { time := some ⟨2025, 10, 10, 4, 2, 8, 0, none⟩, hostname := "mail",
    process := "postfix/qmgr[1]", queue_id := "NEW1", messages := "removed",
    client_hostname := "", client_ip := "", message_id := "", from_addr := "",
    to_addr := "", status := "" }

theorem c9_witness :
    processLine false 2025 [] ("Oct 10 04:02:08 mail postfix/qmgr[1]: NEW1: removed") =
      (some (freshE c9lf.queue_id), []) ∧
    lookupQ (processLine false 2025 []
      ("Oct 10 04:02:08 mail postfix/qmgr[1]: NEW1: removed")).2 c9lf.queue_id = none ∧
    (freshE c9lf.queue_id).time = none ∧ (freshE c9lf.queue_id).hostname = "" ∧
    (freshE c9lf.queue_id).process = "" ∧ (freshE c9lf.queue_id).client_hostname = "" ∧
    (freshE c9lf.queue_id).client_ip = "" ∧ (freshE c9lf.queue_id).message_id = "" ∧
    (freshE c9lf.queue_id).from_addr = "" ∧ (freshE c9lf.queue_id).messages = [] :=
  c9_removed_unknown_id false 2025 []
    ("Oct 10 04:02:08 mail postfix/qmgr[1]: NEW1: removed") c9lf
    (by decide) (by decide) (by decide) rfl

/-- C4: for every line the pattern accepts, a capture group that did not
participate yields the empty string in the returned record, never an absent
marker: the parsed record is built from the captures with empty-string
defaults for each optional group; the timestamp alone is typed as optional
and is the only field that can be genuinely absent. -/
theorem c4_absent_groups_empty (year : Nat) (line : String) (lf : LogFormat)
    (hp : parse_line year line = some lf) :
    ∃ g, matchLine (pyStrip line.data) = some g ∧ lf = groupsToRecord year g ∧
      (g.process = none → lf.process = "") ∧
      (g.clientHost = none → lf.client_hostname = "") ∧
      (g.clientIp = none → lf.client_ip = "") ∧
      (g.messageId = none → lf.message_id = "") ∧
      (g.fromAddr = none → lf.from_addr = "") ∧
      (g.toAddr = none → lf.to_addr = "") ∧
      (g.status = none → lf.status = "") := by
  unfold parse_line at hp
  simp only [] at hp
  split_ifs at hp
  obtain ⟨g, hg, hgr⟩ := Option.map_eq_some'.mp hp
  refine ⟨g, hg, hgr.symm, ?_, ?_, ?_, ?_, ?_, ?_, ?_⟩ <;>
    (intro h; rw [← hgr]; unfold groupsToRecord; rw [h]; rfl)

def c4lf : LogFormat :=
  { time := some ⟨2025, 10, 1, 0, 0, 0, 0, none⟩, hostname := "mail", process := "",
    queue_id := "AB", messages := "removed", client_hostname := "", client_ip := "",
    message_id := "", from_addr := "", to_addr := "", status := "" }

theorem c4_witness :
    ∃ g, matchLine (pyStrip ("Oct 1 00:00:00 mail : AB: removed").data) = some g ∧
      c4lf = groupsToRecord 2025 g ∧
      (g.process = none → c4lf.process = "") ∧
      (g.clientHost = none → c4lf.client_hostname = "") ∧
      (g.clientIp = none → c4lf.client_ip = "") ∧
      (g.messageId = none → c4lf.message_id = "") ∧
      (g.fromAddr = none → c4lf.from_addr = "") ∧
      (g.toAddr = none → c4lf.to_addr = "") ∧
      (g.status = none → c4lf.status = "") :=
  c4_absent_groups_empty 2025 ("Oct 1 00:00:00 mail : AB: removed") c4lf (by decide)

theorem processLine_not_removed (fb : Bool) (year : Nat) (m : QueueMap) (line : String)
    (lf : LogFormat) (hp : parse_line year line = some lf) (hq : lf.queue_id ≠ "")
    (hr : lf.messages ≠ ("removed")) :
    (processLine fb year m line).1 = none ∧
    (processLine fb year m line).2 = (processRecord fb m lf).2 := by
  simp only [processLine, hp, if_neg hq]
  exact ⟨(processRecord_not_removed fb m lf hr).1, trivial⟩

theorem mapWf_processAll (fb : Bool) (year : Nat) (ls : List String) :
    ∀ m, MapWf m → MapWf (processAll fb year m ls).2 := by
  induction ls with
  | nil => intro m h; exact h
  | cons l t ih =>
    intro m h
    exact ih _ (mapWf_processLine fb year m l h)

theorem drain_no_key (m : QueueMap) (hwf : MapWf m) (k : String)
    (hnone : lookupQ m k = none) :
    ∀ e ∈ (get_remaining_entries m).1, e.queue_id ≠ k := by
  intro e he heq
  simp only [get_remaining_entries, List.mem_map] at he
  obtain ⟨p, hpm, hpe⟩ := he
  have h1 : p.2.queue_id = p.1 := hwf.1 p hpm
  have h2 : p.1 = k := by rw [← h1, hpe, heq]
  have h3 : k ∈ m.map Prod.fst := h2 ▸ List.mem_map_of_mem Prod.fst hpm
  have := lookupQ_isSome_of_mem m k h3
  rw [hnone] at this
  simp at this

theorem c1_induction (fb : Bool) (year : Nat) (X : String) (hX : X ≠ "")
    (lastL : String) (hlast : ∃ r, parse_line year lastL = some r ∧
      r.queue_id = X ∧ r.messages = ("removed")) (init : List String) :
    ∀ m, MapWf m →
    (∀ l ∈ init, ∃ r, parse_line year l = some r ∧ r.queue_id = X ∧
      r.messages ≠ ("removed")) →
    ∃ e, (processAll fb year m (init ++ [lastL])).1 =
        List.replicate init.length none ++ [some e] ∧
      e.queue_id = X ∧
      lookupQ (processAll fb year m (init ++ [lastL])).2 X = none := by
  induction init with
  | nil =>
    intro m hwf _
    obtain ⟨r, hp, hqX, hrem⟩ := hlast
    have hq : r.queue_id ≠ "" := by rw [hqX]; exact hX
    have hpr := processRecord_removed fb m r hrem hwf
    refine ⟨updateEntry fb (entryBefore m r.queue_id) r, ?_, ?_, ?_⟩
    · show (processLine fb year m lastL).1 ::
        (processAll fb year (processLine fb year m lastL).2 []).1 =
        List.replicate 0 none ++ [some (updateEntry fb (entryBefore m r.queue_id) r)]
      simp only [processLine, hp, if_neg hq, processAll]
      rw [hpr.1]
      rfl
    · rw [updateEntry_queue_id]
      unfold entryBefore
      rw [lookupQ_getD_queue_id m r.queue_id hwf]
      exact hqX
    · show lookupQ (processAll fb year (processLine fb year m lastL).2 []).2 X = none
      simp only [processAll, processLine, hp, if_neg hq]
      rw [← hqX]
      exact hpr.2
  | cons l t ih =>
    intro m hwf hinit
    obtain ⟨r, hp, hqX, hrem⟩ := hinit l (List.mem_cons_self l t)
    have hq : r.queue_id ≠ "" := by rw [hqX]; exact hX
    have hpl := processLine_not_removed fb year m l r hp hq hrem
    have hwf1 : MapWf (processLine fb year m l).2 := mapWf_processLine fb year m l hwf
    obtain ⟨e, h1, h2, h3⟩ := ih (processLine fb year m l).2 hwf1
      (fun l2 hl2 => hinit l2 (List.mem_cons_of_mem l hl2))
    refine ⟨e, ?_, h2, ?_⟩
    · show (processLine fb year m l).1 ::
        (processAll fb year (processLine fb year m l).2 (t ++ [lastL])).1 =
        List.replicate (l :: t).length none ++ [some e]
      rw [hpl.1, h1]
      rfl
    · show lookupQ (processAll fb year (processLine fb year m l).2 (t ++ [lastL])).2 X = none
      exact h3

/-- C1 as amended: for a sequence of lines for transaction id X whose final
line is the removed line and whose earlier lines are not, processing emits no
transaction on the earlier lines and exactly one — keyed X — on the final
line, and X is absent from the live map and from a subsequent drain. -/
theorem c1_amended_single_emission (fb : Bool) (year : Nat) (m : QueueMap)
    (X : String) (init : List String) (lastL : String) (hwf : MapWf m) (hX : X ≠ "")
    (hinit : ∀ l ∈ init, ∃ r, parse_line year l = some r ∧ r.queue_id = X ∧
      r.messages ≠ ("removed"))
    (hlast : ∃ r, parse_line year lastL = some r ∧ r.queue_id = X ∧
      r.messages = ("removed")) :
    ∃ e, (processAll fb year m (init ++ [lastL])).1 =
        List.replicate init.length none ++ [some e] ∧
      e.queue_id = X ∧
      lookupQ (processAll fb year m (init ++ [lastL])).2 X = none ∧
      ∀ e2 ∈ (get_remaining_entries (processAll fb year m (init ++ [lastL])).2).1,
        e2.queue_id ≠ X := by
  obtain ⟨e, h1, h2, h3⟩ := c1_induction fb year X hX lastL hlast init m hwf hinit
  refine ⟨e, h1, h2, h3, ?_⟩
  exact drain_no_key _ (mapWf_processAll fb year _ m hwf) X h3

def c1r1 : LogFormat :=
  { time := some ⟨2025, 10, 10, 4, 2, 8, 0, none⟩, hostname := "mail",
    process := "postfix/qmgr[1]", queue_id := "AAA", messages := "from=<a@b>, size=9",
    client_hostname := "", client_ip := "", message_id := "", from_addr := "a@b",
    to_addr := "", status := "" }

def c1r2 : LogFormat :=
  { time := some ⟨2025, 10, 10, 4, 2, 9, 0, none⟩, hostname := "mail",
    process := "postfix/qmgr[1]", queue_id := "AAA", messages := "removed",
    client_hostname := "", client_ip := "", message_id := "", from_addr := "",
    to_addr := "", status := "" }

theorem c1_amended_witness :
    ∃ e, (processAll false 2025 []
        ([("Oct 10 04:02:08 mail postfix/qmgr[1]: AAA: from=<a@b>, size=9")] ++
         [("Oct 10 04:02:09 mail postfix/qmgr[1]: AAA: removed")])).1 =
        List.replicate 1 none ++ [some e] ∧
      e.queue_id = ("AAA") ∧
      lookupQ (processAll false 2025 []
        ([("Oct 10 04:02:08 mail postfix/qmgr[1]: AAA: from=<a@b>, size=9")] ++
         [("Oct 10 04:02:09 mail postfix/qmgr[1]: AAA: removed")])).2 ("AAA") = none ∧
      ∀ e2 ∈ (get_remaining_entries (processAll false 2025 []
        ([("Oct 10 04:02:08 mail postfix/qmgr[1]: AAA: from=<a@b>, size=9")] ++
         [("Oct 10 04:02:09 mail postfix/qmgr[1]: AAA: removed")])).2).1,
        e2.queue_id ≠ ("AAA") := by
  have h := c1_amended_single_emission false 2025 [] ("AAA")
    [("Oct 10 04:02:08 mail postfix/qmgr[1]: AAA: from=<a@b>, size=9")]
    ("Oct 10 04:02:09 mail postfix/qmgr[1]: AAA: removed") mapWf_nil (by decide)
    (by
      intro l hl
      simp only [List.mem_singleton] at hl
      subst hl
      exact ⟨c1r1, by decide, by decide, by decide⟩)
    ⟨c1r2, by decide, by decide, by decide⟩
  exact h

/-- C1 as stated is refuted: a sequence for id AAA consisting of two removed
lines ends with a removed line, yet process returns a transaction for AAA on
both lines — two in total, the first of them not on the final line. -/
theorem c1_counterexample :
    (processAll false 2025 []
      [("Oct 10 04:02:08 mail postfix/qmgr[1]: AAA: removed"),
       ("Oct 10 04:02:08 mail postfix/qmgr[1]: AAA: removed")]).1 =
    [some (freshE ("AAA")), some (freshE ("AAA"))] := by decide

/-- A record whose message-id, sender or recipient field is present — the
three kinds of line on which fallback adoption can be reached. -/
def isTrigger (r : LogFormat) : Bool :=
  decide (r.message_id ≠ "") || decide (r.from_addr ≠ "") || decide (r.to_addr ≠ "")

theorem stepClient_noop (e : PostfixLogEntry) (r : LogFormat)
    (hc : r.client_hostname = "") : stepClient e r = e := by
  simp [stepClient, hc]

theorem stepMid_noop (fb : Bool) (e : PostfixLogEntry) (r : LogFormat)
    (hm : r.message_id = "") : stepMid fb e r = e := by
  simp [stepMid, hm]

theorem stepFrom_noop (fb : Bool) (e : PostfixLogEntry) (r : LogFormat)
    (hf : r.from_addr = "") : stepFrom fb e r = e := by
  simp [stepFrom, hf]

theorem stepTo_noop (fb : Bool) (e : PostfixLogEntry) (r : LogFormat)
    (ht : r.to_addr = "") : stepTo fb e r = e := by
  simp [stepTo, ht]

theorem stepMid_adopt (e : PostfixLogEntry) (r : LogFormat)
    (hm : r.message_id ≠ "") (ht : e.time = none) : thpEq (stepMid true e r) r := by
  unfold stepMid thpEq
  simp [hm, ht]

theorem stepFrom_adopt (e : PostfixLogEntry) (r : LogFormat)
    (hf : r.from_addr ≠ "") (ht : e.time = none) : thpEq (stepFrom true e r) r := by
  unfold stepFrom thpEq
  simp [hf, ht]

theorem stepTo_adopt (e : PostfixLogEntry) (r : LogFormat)
    (htr : r.to_addr ≠ "") (ht : e.time = none) : thpEq (stepTo true e r) r := by
  unfold stepTo thpEq
  simp [htr, ht]

/-- On a client-free record, a fully adopted state is reproduced by the whole
update: every later step either leaves the three fields alone or rewrites
them with the same line's values. -/
theorem updateEntry_adopt (e : PostfixLogEntry) (r : LogFormat)
    (hc : r.client_hostname = "") (ht : e.time = none) (htr : isTrigger r = true) :
    thpEq (updateEntry true e r) r := by
  unfold updateEntry
  rw [stepClient_noop e r hc]
  by_cases hm : r.message_id = ""
  · rw [stepMid_noop true e r hm]
    by_cases hf : r.from_addr = ""
    · rw [stepFrom_noop true e r hf]
      have htv : r.to_addr ≠ "" := by
        simp [isTrigger, hm, hf] at htr
        simpa using htr
      exact stepTo_adopt e r htv ht
    · exact stepTo_thp true _ r (stepFrom_adopt e r hf ht)
  · exact stepTo_thp true _ r (stepFrom_thp true _ r (stepMid_adopt e r hm ht))

theorem stepMid_keep (fb : Bool) (e : PostfixLogEntry) (r : LogFormat)
    (ht : e.time ≠ none) :
    (stepMid fb e r).time = e.time ∧ (stepMid fb e r).hostname = e.hostname ∧
    (stepMid fb e r).process = e.process := by
  unfold stepMid
  split_ifs <;> simp_all

theorem stepFrom_keep (fb : Bool) (e : PostfixLogEntry) (r : LogFormat)
    (ht : e.time ≠ none) :
    (stepFrom fb e r).time = e.time ∧ (stepFrom fb e r).hostname = e.hostname ∧
    (stepFrom fb e r).process = e.process := by
  unfold stepFrom
  split_ifs <;> simp_all

theorem stepTo_keep (fb : Bool) (e : PostfixLogEntry) (r : LogFormat)
    (ht : e.time ≠ none) :
    (stepTo fb e r).time = e.time ∧ (stepTo fb e r).hostname = e.hostname ∧
    (stepTo fb e r).process = e.process := by
  unfold stepTo
  split_ifs <;> simp_all

/-- On a client-free record, an entry with a present timestamp keeps its
timestamp, hostname and process tag through the whole update. -/
theorem updateEntry_keep (fb : Bool) (e : PostfixLogEntry) (r : LogFormat)
    (hc : r.client_hostname = "") (ht : e.time ≠ none) :
    (updateEntry fb e r).time = e.time ∧ (updateEntry fb e r).hostname = e.hostname ∧
    (updateEntry fb e r).process = e.process := by
  unfold updateEntry
  rw [stepClient_noop e r hc]
  have h1 := stepMid_keep fb e r ht
  have ht1 : (stepMid fb e r).time ≠ none := by rw [h1.1]; exact ht
  have h2 := stepFrom_keep fb (stepMid fb e r) r ht1
  have ht2 : (stepFrom fb (stepMid fb e r) r).time ≠ none := by rw [h2.1]; exact ht1
  have h3 := stepTo_keep fb (stepFrom fb (stepMid fb e r) r) r ht2
  exact ⟨by rw [h3.1, h2.1, h1.1], by rw [h3.2.1, h2.2.1, h1.2.1],
    by rw [h3.2.2, h2.2.2, h1.2.2]⟩

/-- A record that is no trigger and carries no client hostname leaves the
entry untouched. -/
theorem updateEntry_nontrigger (fb : Bool) (e : PostfixLogEntry) (r : LogFormat)
    (hc : r.client_hostname = "") (htr : isTrigger r = false) :
    updateEntry fb e r = e := by
  simp only [isTrigger, Bool.or_eq_false_iff, decide_eq_false_iff_not, not_not] at htr
  exact updateEntry_noop fb e r hc htr.1.1 htr.1.2 htr.2

theorem foldl_keep (rs : List LogFormat) (e : PostfixLogEntry)
    (hc : ∀ r ∈ rs, r.client_hostname = "") (ht : e.time ≠ none) :
    (rs.foldl (updateEntry true) e).time = e.time ∧
    (rs.foldl (updateEntry true) e).hostname = e.hostname ∧
    (rs.foldl (updateEntry true) e).process = e.process := by
  induction rs generalizing e with
  | nil => exact ⟨rfl, rfl, rfl⟩
  | cons r t ih =>
    have h1 := updateEntry_keep true e r (hc r (List.mem_cons_self r t)) ht
    have ht1 : (updateEntry true e r).time ≠ none := by rw [h1.1]; exact ht
    have h2 := ih (updateEntry true e r) (fun x hx => hc x (List.mem_cons_of_mem r hx)) ht1
    exact ⟨by rw [List.foldl_cons, h2.1, h1.1],
      by rw [List.foldl_cons, h2.2.1, h1.2.1],
      by rw [List.foldl_cons, h2.2.2, h1.2.2]⟩

/-- Characterization of fallback adoption over a client-free record sequence:
the final timestamp, hostname and process tag come from the first record that
both is a trigger and carries a present timestamp; with no such record the
timestamp stays absent. -/
theorem foldl_adoption (rs : List LogFormat) (e0 : PostfixLogEntry)
    (h0 : e0.time = none) (hc : ∀ r ∈ rs, r.client_hostname = "") :
    (∀ r0, rs.find? (fun r => isTrigger r && r.time.isSome) = some r0 →
      thpEq (rs.foldl (updateEntry true) e0) r0) ∧
    (rs.find? (fun r => isTrigger r && r.time.isSome) = none →
      (rs.foldl (updateEntry true) e0).time = none) := by
  induction rs generalizing e0 with
  | nil => exact ⟨fun r0 h => by simp at h, fun _ => h0⟩
  | cons r t ih =>
    have hcr := hc r (List.mem_cons_self r t)
    have hct := fun x hx => hc x (List.mem_cons_of_mem r hx)
    by_cases hcond : (isTrigger r && r.time.isSome) = true
    · have hfind : (r :: t).find? (fun r => isTrigger r && r.time.isSome) = some r :=
        List.find?_cons_of_pos _ hcond
      have h12 : isTrigger r = true ∧ r.time.isSome = true := by simpa using hcond
      have htr : isTrigger r = true := h12.1
      have hts : r.time.isSome := h12.2
      have hadopt := updateEntry_adopt e0 r hcr h0 htr
      have htne : (updateEntry true e0 r).time ≠ none := by
        rw [hadopt.1]
        intro hcontra
        rw [hcontra] at hts
        simp at hts
      have hk := foldl_keep t (updateEntry true e0 r) hct htne
      constructor
      · intro r0 hr0
        rw [hfind] at hr0
        obtain rfl : r = r0 := by injection hr0
        rw [List.foldl_cons]
        exact ⟨by rw [hk.1, hadopt.1], by rw [hk.2.1, hadopt.2.1],
          by rw [hk.2.2, hadopt.2.2]⟩
      · intro hr0
        rw [hfind] at hr0
        exact absurd hr0 (by simp)
    · have hfind : (r :: t).find? (fun r => isTrigger r && r.time.isSome) =
          t.find? (fun r => isTrigger r && r.time.isSome) :=
        List.find?_cons_of_neg _ (by simpa using hcond)
      have h0next : (updateEntry true e0 r).time = none := by
        cases htr : isTrigger r with
        | false => rw [updateEntry_nontrigger true e0 r hcr htr]; exact h0
        | true =>
          have hts : r.time = none := by
            cases hrt : r.time with
            | none => rfl
            | some v => exact absurd (by rw [htr, hrt]; rfl) hcond
          have := updateEntry_adopt e0 r hcr h0 htr
          rw [this.1, hts]
      have hih := ih (updateEntry true e0 r) h0next hct
      exact ⟨fun r0 h => by
          rw [hfind] at h
          rw [List.foldl_cons]
          exact hih.1 r0 h,
        fun h => by
          rw [hfind] at h
          rw [List.foldl_cons]
          exact hih.2 h⟩

/-- The live-map entry after a client-free, removal-free record run equals the
fold of the update steps over the entry present at the start. -/
theorem processRecords_foldl (fb : Bool) (X : String) (rs : List LogFormat)
    (hq : ∀ r ∈ rs, r.queue_id = X) (hr : ∀ r ∈ rs, r.messages ≠ ("removed")) :
    ∀ m e0, lookupQ m X = some e0 →
    lookupQ (processRecords fb m rs).2 X = some (rs.foldl (updateEntry fb) e0) := by
  induction rs with
  | nil => intro m e0 h0; exact h0
  | cons r t ih =>
    intro m e0 h0
    have hqr := hq r (List.mem_cons_self r t)
    have hstep := (processRecord_not_removed fb m r (hr r (List.mem_cons_self r t))).2
    rw [hqr] at hstep
    have hbefore : entryBefore m r.queue_id = e0 := by
      unfold entryBefore
      rw [hqr, h0]
      rfl
    rw [hqr] at hbefore
    show lookupQ (processRecords fb (processRecord fb m r).2 t).2 X = _
    rw [List.foldl_cons]
    exact ih (fun x hx => hq x (List.mem_cons_of_mem r hx))
      (fun x hx => hr x (List.mem_cons_of_mem r hx))
      (processRecord fb m r).2 (updateEntry fb e0 r) (by rw [hstep, hbefore])

/-- C2 as amended: under fallback mode, for a client-free transaction record
run started fresh, adoption can fire on several records while timestamps are
absent, and the finally adopted timestamp, hostname and process tag are those
of the first record among message-id, sender and recipient lines whose
resolved timestamp is present; if no such record exists the timestamp stays
absent. -/
theorem c2_amended_adoption (m : QueueMap) (X : String) (rs : List LogFormat)
    (hne : rs ≠ []) (hq : ∀ r ∈ rs, r.queue_id = X)
    (hc : ∀ r ∈ rs, r.client_hostname = "")
    (hr : ∀ r ∈ rs, r.messages ≠ ("removed"))
    (habs : lookupQ m X = none) :
    ∃ e, lookupQ (processRecords true m rs).2 X = some e ∧
      (∀ r0, rs.find? (fun r => isTrigger r && r.time.isSome) = some r0 →
        e.time = r0.time ∧ e.hostname = r0.hostname ∧ e.process = r0.process) ∧
      (rs.find? (fun r => isTrigger r && r.time.isSome) = none → e.time = none) := by
  cases rs with
  | nil => exact absurd rfl hne
  | cons r t =>
    have hqr := hq r (List.mem_cons_self r t)
    have hstep := (processRecord_not_removed true m r (hr r (List.mem_cons_self r t))).2
    have hbefore : entryBefore m r.queue_id = freshE X := by
      unfold entryBefore
      rw [hqr, habs]
      rfl
    rw [hbefore, hqr] at hstep
    have hfold := processRecords_foldl true X t
      (fun x hx => hq x (List.mem_cons_of_mem r hx))
      (fun x hx => hr x (List.mem_cons_of_mem r hx))
      (processRecord true m r).2 (updateEntry true (freshE X) r) hstep
    have hchar := foldl_adoption (r :: t) (freshE X) rfl hc
    refine ⟨(r :: t).foldl (updateEntry true) (freshE X), ?_, ?_, hchar.2⟩
    · show lookupQ (processRecords true (processRecord true m r).2 t).2 X = _
      rw [List.foldl_cons]
      exact hfold
    · intro r0 h
      exact hchar.1 r0 h

def c2r1 : LogFormat :=
  { time := none, hostname := "mail", process := "postfix/cleanup[7]",
    queue_id := "XYZ", messages := "message-id=<m@x>", client_hostname := "",
    client_ip := "", message_id := "m@x", from_addr := "", to_addr := "",
    status := "" }

def c2r2 : LogFormat :=
  { time := some ⟨2025, 10, 10, 4, 2, 8, 0, none⟩, hostname := "mail2",
    process := "postfix/qmgr[8]", queue_id := "XYZ",
    messages := "from=<a@b>, size=100", client_hostname := "", client_ip := "",
    message_id := "", from_addr := "a@b", to_addr := "", status := "" }

theorem c2_amended_witness :
    ∃ e, lookupQ (processRecords true [] [c2r1, c2r2]).2 ("XYZ") = some e ∧
      (∀ r0, ([c2r1, c2r2].find? (fun r => isTrigger r && r.time.isSome)) = some r0 →
        e.time = r0.time ∧ e.hostname = r0.hostname ∧ e.process = r0.process) ∧
      (([c2r1, c2r2].find? (fun r => isTrigger r && r.time.isSome)) = none →
        e.time = none) :=
  c2_amended_adoption [] ("XYZ") [c2r1, c2r2] (by decide)
    (by intro r hr2; fin_cases hr2 <;> decide)
    (by intro r hr2; fin_cases hr2 <;> decide)
    (by intro r hr2; fin_cases hr2 <;> decide) rfl

/-- C2 as stated is refuted on two lines for id XYZ under fallback mode: the
first-seen trigger line is a message-id line whose timestamp does not
resolve, so adoption fires on it (copying hostname mail) and then fires again
on the later sender line, whose timestamp and hostname (mail2) the
transaction finally carries — adoption fired twice, and the adopted timestamp
is not that of the first-seen line, whose timestamp is absent. -/
theorem c2_counterexample :
    (parse_line 2025 ("Zzz 12 23:59:59 mail postfix/cleanup[7]: XYZ: message-id=<m@x>")).map
        (fun r => (r.hostname, r.time, r.message_id)) = some (("mail"), none, ("m@x")) ∧
    (lookupQ (processAll true 2025 []
        [("Zzz 12 23:59:59 mail postfix/cleanup[7]: XYZ: message-id=<m@x>"),
         ("Oct 10 04:02:08 mail2 postfix/qmgr[8]: XYZ: from=<a@b>, size=100")]).2
        ("XYZ")).map (fun e => (e.hostname, e.time)) =
      some (("mail2"), some ⟨2025, 10, 10, 4, 2, 8, 0, none⟩) := by
  constructor
  · decide
  · decide

theorem takeWhile_append_all (p : Char → Bool) (q r : List Char)
    (hq : ∀ c ∈ q, p c = true) (hr : r.takeWhile p = []) :
    (q ++ r).takeWhile p = q := by
  induction q with
  | nil => simpa using hr
  | cons c t ih =>
    have hc := hq c (List.mem_cons_self c t)
    rw [List.cons_append, List.takeWhile_cons, hc]
    simp only [if_true]
    rw [ih (fun x hx => hq x (List.mem_cons_of_mem c hx))]

theorem dropWhile_append_all (p : Char → Bool) (q r : List Char)
    (hq : ∀ c ∈ q, p c = true) (hr : r.dropWhile p = r) :
    (q ++ r).dropWhile p = r := by
  induction q with
  | nil => simpa using hr
  | cons c t ih =>
    have hc := hq c (List.mem_cons_self c t)
    rw [List.cons_append, List.dropWhile_cons, hc]
    simp only [if_true]
    exact ih (fun x hx => hq x (List.mem_cons_of_mem c hx))

/-- Fixed surroundings of the queue-id position in an otherwise well-formed
line: a syslog timestamp, an empty hostname, no process tag, then the
colon-space before the id. -/
def c8pre : List Char :=
  'O' :: 'c' :: 't' :: ' ' :: '1' :: ' ' :: '0' :: '0' :: ':' :: '0' :: '0' ::
  ':' :: '0' :: '0' :: ' ' :: ' ' :: ':' :: ' ' :: []

/-- Details region after the queue id: a colon-space and the removed marker. -/
def c8suf : List Char :=
  ':' :: ' ' :: 'r' :: 'e' :: 'm' :: 'o' :: 'v' :: 'e' :: 'd' :: []

/-- Residue of the pattern after its fixed prefix has consumed the fixed
surroundings: the queue-id run, the optional colon-space and the details. -/
def c8tail (x : List Char) : Option Groups :=
  let q := x.takeWhile isQueueC
  let l7 := x.dropWhile isQueueC
  let l8 := match dropLit ([':', ' ']) l7 with
    | some y => y
    | none => l7
  let d := detailsRun l8
  some ⟨'O' :: 'c' :: 't' :: ' ' :: '1' :: ' ' :: '0' :: '0' :: ':' :: '0' :: '0' ::
      ':' :: '0' :: '0' :: [], [], none, q, d.text, d.clientHost, d.clientIp,
    d.messageId, d.fromAddr, d.toAddr, d.status⟩

theorem matchLine_c8 (x : List Char) : matchLine (c8pre ++ x) = c8tail x := rfl

theorem pyStrip_eq_self (l : List Char) (h1 : l.dropWhile isSpaceC = l)
    (h2 : l.reverse.dropWhile isSpaceC = l.reverse) : pyStrip l = l := by
  unfold pyStrip
  rw [h1, h2, List.reverse_reverse]

/-- C8 as amended: the transaction-id position accepts exactly the tokens
over digits and uppercase letters (possibly empty): in the otherwise
well-formed line surroundings above, parse succeeds for every such token and
returns it as the transaction id. -/
theorem c8_amended_queue_id (q : List Char) (hq : ∀ c ∈ q, isQueueC c = true) :
    (parse_line 2025 (String.mk (c8pre ++ q ++ c8suf))).map (fun r => r.queue_id) =
      some (String.mk q) := by
  have hrev : (c8pre ++ q ++ c8suf).reverse =
      c8suf.reverse ++ (q.reverse ++ c8pre.reverse) := by
    simp [List.reverse_append]
  have h2 : (c8pre ++ q ++ c8suf).reverse.dropWhile isSpaceC =
      (c8pre ++ q ++ c8suf).reverse := by
    rw [hrev]
    rfl
  have hstrip : pyStrip (c8pre ++ q ++ c8suf) = c8pre ++ q ++ c8suf :=
    pyStrip_eq_self _ rfl h2
  have hne : c8pre ++ q ++ c8suf ≠ [] := by
    intro h
    have := congrArg List.length h
    simp [c8pre] at this
  unfold parse_line
  simp only []
  rw [hstrip, if_neg hne, List.append_assoc, matchLine_c8]
  unfold c8tail
  simp only []
  rw [takeWhile_append_all isQueueC q c8suf hq rfl,
    dropWhile_append_all isQueueC q c8suf hq rfl]
  rfl

theorem c8_amended_witness :
    (∀ c ∈ ('A' :: 'B' :: '1' :: []), isQueueC c = true) ∧
    (parse_line 2025 (String.mk (c8pre ++ ('A' :: 'B' :: '1' :: []) ++ c8suf))).map
      (fun r => r.queue_id) = some (String.mk ('A' :: 'B' :: '1' :: [])) :=
  ⟨by decide, c8_amended_queue_id ('A' :: 'B' :: '1' :: []) (by decide)⟩

/-- C8 as stated is refuted: on an otherwise well-formed line whose
transaction-id token is the alphanumeric (lowercase) token abc, parse
succeeds but returns the empty transaction id — the token is not accepted in
the id position, and the whole tail including the token is left as raw text. -/
theorem c8_counterexample :
    (parse_line 2025 ("Oct 1 00:00:00 mail postfix/smtpd[7]: abc: removed")).map
      (fun r => (r.queue_id, r.messages)) = some (("", "abc: removed")) ∧
    ("" : String) ≠ ("abc") := by
  constructor
  · decide
  · decide

theorem tryFrom_capture (l : List Char) (t : List Char × List Char × List Char)
    (h : tryFrom l = some t) : hasInnerAt t.2.1 = true := by
  unfold tryFrom at h
  split at h
  · exact absurd h (by simp)
  · split at h
    · simp only [] at h
      split_ifs at h with hin
      simp only [Option.some.injEq] at h
      rw [← h]
      exact hin
    · exact absurd h (by simp)

theorem tryTo_capture (l : List Char) (t : List Char × List Char × List Char × List Char)
    (h : tryTo l = some t) : hasInnerAt t.2.1 = true := by
  unfold tryTo at h
  split at h
  · exact absurd h (by simp)
  · split at h
    · simp only [] at h
      split_ifs at h with hin
      split at h
      · simp only [Option.some.injEq] at h
        rw [← h]
        exact hin
      · exact absurd h (by simp)
    · exact absurd h (by simp)

theorem runFrom_capture (x R : List Char) (h : (runFrom x).2.1 = some R) :
    hasInnerAt R = true := by
  unfold runFrom at h
  split at h
  · rename_i con cap r heq
    simp only [Option.some.injEq] at h
    have hcap := tryFrom_capture x (con, cap, r) heq
    simp only at hcap h
    rw [← h]
    exact hcap
  · simp at h

theorem runTo_capture (x R : List Char) (h : (runTo x).2.1 = some R) :
    hasInnerAt R = true := by
  unfold runTo at h
  split at h
  · rename_i con cap st r heq
    simp only [Option.some.injEq] at h
    have hcap := tryTo_capture x (con, cap, st, r) heq
    simp only at hcap h
    rw [← h]
    exact hcap
  · simp at h

theorem detailsRun_fromAddr_eq (l : List Char) :
    (detailsRun l).fromAddr = (runFrom (runMid (runClient l).2.2.2).2.2).2.1 := rfl

theorem detailsRun_toAddr_eq (l : List Char) :
    (detailsRun l).toAddr =
      (runTo (runFrom (runMid (runClient l).2.2.2).2.2).2.2).2.1 := rfl

/-- An address accepted inside the angle brackets splits as nonempty text, an
at sign, nonempty text. -/
theorem hasInnerAt_split (R : List Char) (h : hasInnerAt R = true) :
    ∃ a b : List Char, R = a ++ '@' :: b ∧ a ≠ [] ∧ b ≠ [] := by
  unfold hasInnerAt at h
  have hmem : '@' ∈ (R.drop 1).dropLast := by simpa using h
  cases R with
  | nil => simp at hmem
  | cons c R2 =>
    have hmem2 : '@' ∈ R2.dropLast := by simpa using hmem
    have hR2 : R2 ≠ [] := by
      intro hh
      rw [hh] at hmem2
      simp at hmem2
    obtain ⟨s, t2, hst⟩ := List.append_of_mem hmem2
    rcases List.eq_nil_or_concat R2 with hnil | ⟨l2, a2, hconcat⟩
    · exact absurd hnil hR2
    · rw [List.concat_eq_append] at hconcat
      rw [hconcat, List.dropLast_concat] at hst
      refine ⟨c :: s, t2 ++ [a2], ?_, by simp, by simp⟩
      rw [hconcat, hst]
      simp

/-- C10: both address sub-patterns only accept, inside the angle brackets, an
address with an at sign flanked by nonempty text: every nonempty sender or
recipient capture splits that way; an empty-bracket sender token yields an
empty sender field, and a recipient token with no status word after it yields
an empty recipient field, so the correlator appends no delivery attempt for
that line. -/
theorem c10_address_shape :
    (∀ year : Nat, ∀ line : String, ∀ lf : LogFormat, parse_line year line = some lf →
      lf.from_addr ≠ "" → ∃ a b : List Char,
        lf.from_addr = String.mk (a ++ '@' :: b) ∧ a ≠ [] ∧ b ≠ []) ∧
    (∀ year : Nat, ∀ line : String, ∀ lf : LogFormat, parse_line year line = some lf →
      lf.to_addr ≠ "" → ∃ a b : List Char,
        lf.to_addr = String.mk (a ++ '@' :: b) ∧ a ≠ [] ∧ b ≠ []) ∧
    ((parse_line 2025 ("Oct 10 04:02:08 mail postfix/qmgr[1]: AB: from=<>")).map
      (fun r => r.from_addr) = some ("")) ∧
    ((parse_line 2025 ("Oct 10 04:02:08 mail postfix/qmgr[1]: AB: to=<c@d> junk")).map
      (fun r => r.to_addr) = some ("")) ∧
    (lookupQ (processLine false 2025 []
        ("Oct 10 04:02:08 mail postfix/qmgr[1]: AB: to=<c@d> junk")).2 ("AB") =
      some (freshE ("AB")) ∧ (freshE ("AB")).messages = []) := by
  refine ⟨?_, ?_, by decide, by decide, by decide, rfl⟩
  · intro year line lf hp hne
    unfold parse_line at hp
    simp only [] at hp
    split_ifs at hp
    obtain ⟨g, hg, hgr⟩ := Option.map_eq_some'.mp hp
    obtain ⟨l8, _, _, _, _, h4, _, _⟩ := matchLine_details _ g hg
    have hfa : lf.from_addr = optStr g.fromAddr := by rw [← hgr]; rfl
    cases hfo : g.fromAddr with
    | none => rw [hfa, hfo] at hne; exact absurd rfl hne
    | some R =>
      have hcap : (runFrom (runMid (runClient l8).2.2.2).2.2).2.1 = some R := by
        rw [← detailsRun_fromAddr_eq, ← h4, hfo]
      have hin := runFrom_capture _ R hcap
      obtain ⟨a, b, hab, ha, hb⟩ := hasInnerAt_split R hin
      exact ⟨a, b, by rw [hfa, hfo, hab]; rfl, ha, hb⟩
  · intro year line lf hp hne
    unfold parse_line at hp
    simp only [] at hp
    split_ifs at hp
    obtain ⟨g, hg, hgr⟩ := Option.map_eq_some'.mp hp
    obtain ⟨l8, _, _, _, _, _, h5, _⟩ := matchLine_details _ g hg
    have hta : lf.to_addr = optStr g.toAddr := by rw [← hgr]; rfl
    cases hto : g.toAddr with
    | none => rw [hta, hto] at hne; exact absurd rfl hne
    | some R =>
      have hcap : (runTo (runFrom (runMid (runClient l8).2.2.2).2.2).2.2).2.1 = some R := by
        rw [← detailsRun_toAddr_eq, ← h5, hto]
      have hin := runTo_capture _ R hcap
      obtain ⟨a, b, hab, ha, hb⟩ := hasInnerAt_split R hin
      exact ⟨a, b, by rw [hta, hto, hab]; rfl, ha, hb⟩

def c10lf : LogFormat :=
  { time := some ⟨2025, 10, 10, 4, 2, 8, 0, none⟩, hostname := "mail",
    process := "postfix/qmgr[1]", queue_id := "AB", messages := "from=<a@b>, size=5",
    client_hostname := "", client_ip := "", message_id := "", from_addr := "a@b",
    to_addr := "", status := "" }

theorem c10_witness :
    ∃ a b : List Char, c10lf.from_addr = String.mk (a ++ '@' :: b) ∧ a ≠ [] ∧ b ≠ [] :=
  c10_address_shape.1 2025 ("Oct 10 04:02:08 mail postfix/qmgr[1]: AB: from=<a@b>, size=5")
    c10lf (by decide) (by decide)

end PLog
